import Mathlib

/-!
# portier: session-token codec and one-time-code store

A shallow embedding of `src/main.go`.

* Go `string` / `[]byte` values are lists of bytes (`GoString`).
* `time.Now().Unix()` is an explicit argument `now : Int`.
* `int64` arithmetic is `Int` arithmetic wrapped to 64 bits where the source can overflow.
* A run-time panic (slice or index out of range) is the result `none`.
* `crypto/md5`, `crypto/hmac`, `encoding/hex`, `strconv` and `strings.Index` are library
  code; they are transcribed here so that `verify` and `signature` can be evaluated.
* The pattern of `match` is a `RegularExpression` over bytes; `MatchString` on the anchored
  pattern is membership of the whole string in its language.
* `mapping` is a function from mail addresses to pending codes; a run of the handler takes
  the store before and returns the response, the store after, the calls of the mail
  collaborator and the log lines. The clock, the random draw, the host name of the redirect
  target and the outcome of the mail transport are inputs of a run.
* The response is what the handler leaves in the `http.ResponseWriter`: the status, the
  `Location` header that `http.Redirect` sets and the `Set-Cookie` line that `http.SetCookie`
  adds. `path.Split`, `path.Clean`, the body of `http.Redirect` and the rendering of a cookie
  (`Cookie.String`) are transcribed; the verdict of `url.Parse` on the redirect target, on
  which `http.Redirect` branches, is an input of a run.
-/

namespace Portier

/-! ## Bytes and strings -/

/-- A Go `byte`. -/
abbrev Byte := Fin 256

/-- A Go `string` (equally a `[]byte`): a finite sequence of bytes. -/
abbrev GoString := List Byte

/-- The bytes of an ASCII literal. -/
def ascii (s : String) : GoString := s.toList.map (fun c => Fin.ofNat c.toNat)

/-- The byte `'.'`. -/
def dot : Byte := 46

/-! ## `crypto/md5` -/

/-- `bits.RotateLeft32`. -/
def rotl32 (x s : Nat) : Nat := ((x <<< s) ||| (x >>> (32 - s))) % 2 ^ 32

/-- Per-step left-rotation amounts of MD5. -/
def md5Shift : List Nat :=
  [7, 12, 17, 22, 7, 12, 17, 22, 7, 12, 17, 22, 7, 12, 17, 22,
   5, 9, 14, 20, 5, 9, 14, 20, 5, 9, 14, 20, 5, 9, 14, 20,
   4, 11, 16, 23, 4, 11, 16, 23, 4, 11, 16, 23, 4, 11, 16, 23,
   6, 10, 15, 21, 6, 10, 15, 21, 6, 10, 15, 21, 6, 10, 15, 21]

/-- Per-step additive constants of MD5. -/
def md5Const : List Nat :=
  [0xd76aa478, 0xe8c7b756, 0x242070db, 0xc1bdceee,
   0xf57c0faf, 0x4787c62a, 0xa8304613, 0xfd469501,
   0x698098d8, 0x8b44f7af, 0xffff5bb1, 0x895cd7be,
   0x6b901122, 0xfd987193, 0xa679438e, 0x49b40821,
   0xf61e2562, 0xc040b340, 0x265e5a51, 0xe9b6c7aa,
   0xd62f105d, 0x02441453, 0xd8a1e681, 0xe7d3fbc8,
   0x21e1cde6, 0xc33707d6, 0xf4d50d87, 0x455a14ed,
   0xa9e3e905, 0xfcefa3f8, 0x676f02d9, 0x8d2a4c8a,
   0xfffa3942, 0x8771f681, 0x6d9d6122, 0xfde5380c,
   0xa4beea44, 0x4bdecfa9, 0xf6bb4b60, 0xbebfbc70,
   0x289b7ec6, 0xeaa127fa, 0xd4ef3085, 0x04881d05,
   0xd9d4d039, 0xe6db99e5, 0x1fa27cf8, 0xc4ac5665,
   0xf4292244, 0x432aff97, 0xab9423a7, 0xfc93a039,
   0x655b59c3, 0x8f0ccc92, 0xffeff47d, 0x85845dd1,
   0x6fa87e4f, 0xfe2ce6e0, 0xa3014314, 0x4e0811a1,
   0xf7537e82, 0xbd3af235, 0x2ad7d2bb, 0xeb86d391]

/-- The four chaining words `a, b, c, d` of an MD5 digest in progress. -/
structure Md5State where
  a : Nat
  b : Nat
  c : Nat
  d : Nat
deriving DecidableEq, Repr

/-- Initial chaining value (`init0 .. init3`). -/
def md5Init : Md5State := ⟨0x67452301, 0xefcdab89, 0x98badcfe, 0x10325476⟩

/-- Little-endian 32-bit word starting at offset `4 * j` of a block. -/
def leWord (blk : List Nat) (j : Nat) : Nat :=
  blk.getD (4 * j) 0 + blk.getD (4 * j + 1) 0 * 2 ^ 8 + blk.getD (4 * j + 2) 0 * 2 ^ 16
    + blk.getD (4 * j + 3) 0 * 2 ^ 24

/-- The sixteen message words `x0 .. xf` of a 64-byte block. -/
def blockWords (blk : List Nat) : List Nat := (List.range 16).map (leWord blk)

/-- Step `i` (0..63) of `blockGeneric`: the non-linear function and message word of the
round `i / 16`, then the rotation of the four registers. -/
def md5Step (x : List Nat) (s : Md5State) (i : Nat) : Md5State :=
  let f :=
    if i < 16 then ((s.c ^^^ s.d) &&& s.b) ^^^ s.d
    else if i < 32 then ((s.b ^^^ s.c) &&& s.d) ^^^ s.c
    else if i < 48 then s.b ^^^ s.c ^^^ s.d
    else s.c ^^^ (s.b ||| (s.d ^^^ 0xffffffff))
  let g :=
    if i < 16 then i
    else if i < 32 then (5 * i + 1) % 16
    else if i < 48 then (3 * i + 5) % 16
    else (7 * i) % 16
  let t := (f + s.a + x.getD g 0 + md5Const.getD i 0) % 2 ^ 32
  ⟨s.d, (s.b + rotl32 t (md5Shift.getD i 0)) % 2 ^ 32, s.b, s.c⟩

/-- The compression of one 64-byte block into the chaining value. -/
def md5Block (s : Md5State) (blk : List Nat) : Md5State :=
  let r := (List.range 64).foldl (md5Step (blockWords blk)) s
  ⟨(s.a + r.a) % 2 ^ 32, (s.b + r.b) % 2 ^ 32, (s.c + r.c) % 2 ^ 32, (s.d + r.d) % 2 ^ 32⟩

/-- The loop of `blockGeneric` over `n` consecutive 64-byte blocks. -/
def md5Blocks : Nat → Md5State → List Nat → Md5State
  | 0, s, _ => s
  | n + 1, s, p => md5Blocks n (md5Block s (p.take 64)) (p.drop 64)

/-- Padding of `checkSum`: `0x80`, `(55 - len) % 64` zero bytes, the bit length as a
little-endian `uint64`. -/
def md5Pad (len : Nat) : List Nat :=
  0x80 :: List.replicate ((55 + 64 - len % 64) % 64) 0
    ++ (List.range 8).map (fun k => (len * 8 % 2 ^ 64) / 2 ^ (8 * k) % 256)

/-- Little-endian bytes of a 32-bit word (`binary.LittleEndian.PutUint32`). -/
def leBytes32 (w : Nat) : GoString :=
  [Fin.ofNat w, Fin.ofNat (w / 2 ^ 8), Fin.ofNat (w / 2 ^ 16), Fin.ofNat (w / 2 ^ 24)]

/-- The 16-byte MD5 digest of a message (`md5.Sum`). -/
def md5 (msg : GoString) : GoString :=
  let p := msg.map Fin.val ++ md5Pad msg.length
  let s := md5Blocks (p.length / 64) md5Init p
  leBytes32 s.a ++ leBytes32 s.b ++ leBytes32 s.c ++ leBytes32 s.d

/-! ## `crypto/hmac` over MD5 -/

/-- Block size of MD5 in bytes. -/
def md5BlockSize : Nat := 64

/-- `xor` of every byte of a string with a constant. -/
def xorBytes (k : Nat) (s : GoString) : GoString := s.map (fun b => Fin.ofNat (b.val ^^^ k))

/-- `hmac.New(md5.New, key)` followed by `Write(msg)` and `Sum`: a key longer than one block
is hashed first, then zero-padded to the block size. -/
def hmacMd5 (key msg : GoString) : GoString :=
  let k := if md5BlockSize < key.length then md5 key else key
  let k := k ++ List.replicate (md5BlockSize - k.length) (0 : Byte)
  md5 (xorBytes 0x5c k ++ md5 (xorBytes 0x36 k ++ msg))

/-! ## `encoding/hex` -/

/-- The table `hextable`. -/
def hextable : GoString := ascii "0123456789abcdef"

/-- `hex.Encode`: two lowercase digits per byte, high nibble first. -/
def hexEncode : GoString → GoString
  | [] => []
  | v :: rest => hextable.getD (v.val >>> 4) 0 :: hextable.getD (v.val &&& 0x0f) 0 :: hexEncode rest

/-! ## `strings.Index` and slicing -/

/-- Position of the first occurrence of a byte, if any. -/
def indexByte (c : Byte) : GoString → Option Nat
  | [] => none
  | b :: rest => if b = c then some 0 else (indexByte c rest).map (· + 1)

/-- `strings.Index(s, sep)` for a one-byte separator: the position of its first occurrence,
or `-1` when there is none. -/
def stringsIndex (s : GoString) (c : Byte) : Int :=
  match indexByte c s with
  | some k => (k : Int)
  | none => -1

/-- The slice expression `s[lo:hi]`; `none` is the run-time panic for bounds out of range. -/
def slice (s : GoString) (lo hi : Int) : Option GoString :=
  if 0 ≤ lo ∧ lo ≤ hi ∧ hi ≤ (s.length : Int) then some ((s.take hi.toNat).drop lo.toNat)
  else none

/-- The slice expression `s[lo:]`. -/
def sliceFrom (s : GoString) (lo : Int) : Option GoString := slice s lo s.length

/-! ## `strconv` -/

/-- The two `strconv.NumError` causes reachable with a valid base and bit size. -/
inductive NumError where
  | ErrSyntax
  | ErrRange
deriving DecidableEq, Repr

/-- `lower(c)`, that is `c | ('x' - 'X')`. -/
def lower (c : Nat) : Nat := c ||| 0x20

/-- Digit value of a byte in `ParseUint`: `'0'..'9'` are 0..9, letters of either case are
10..35, any other byte is a syntax error (`none`). -/
def digitVal (c : Byte) : Option Nat :=
  if 48 ≤ c.val ∧ c.val ≤ 57 then some (c.val - 48)
  else if 97 ≤ lower c.val ∧ lower c.val ≤ 122 then some (lower c.val - 97 + 10)
  else none

/-- The digit loop of `strconv.ParseUint` from accumulator `n`: returns the value and the
error. `cutoff` is the least number whose product with the base overflows `uint64`. -/
def parseUintLoop (base maxVal : Nat) : GoString → Nat → Nat × Option NumError
  | [], n => (n, none)
  | c :: rest, n =>
    match digitVal c with
    | none => (0, some .ErrSyntax)
    | some d =>
      if base ≤ d then (0, some .ErrSyntax)
      else if (2 ^ 64 - 1) / base + 1 ≤ n then (maxVal, some .ErrRange)
      else
        let nb := n * base % 2 ^ 64
        let n1 := (nb + d) % 2 ^ 64
        if n1 < nb ∨ maxVal < n1 then (maxVal, some .ErrRange)
        else parseUintLoop base maxVal rest n1

/-- `strconv.ParseUint(s, base, bitSize)` for `2 ≤ base ≤ 36` and `1 ≤ bitSize ≤ 64`. -/
def ParseUint (s : GoString) (base bitSize : Nat) : Nat × Option NumError :=
  if s = [] then (0, some .ErrSyntax)
  else parseUintLoop base (2 ^ bitSize - 1) s 0

/-- `strconv.ParseInt(s, base, bitSize)`: an optional sign, then `ParseUint`; a syntax error
returns 0, a value out of the signed `bitSize` range returns the nearest bound with
`ErrRange`. -/
def ParseInt (s : GoString) (base bitSize : Nat) : Int × Option NumError :=
  match s with
  | [] => (0, some .ErrSyntax)
  | c :: rest =>
    let neg := c = 45
    let s1 := if c = 43 ∨ c = 45 then rest else s
    let r := ParseUint s1 base bitSize
    if r.2 = some .ErrSyntax then (0, some .ErrSyntax)
    else
      let cutoff : Nat := 2 ^ (bitSize - 1)
      if ¬ neg ∧ cutoff ≤ r.1 then ((cutoff : Int) - 1, some .ErrRange)
      else if neg ∧ cutoff < r.1 then (-(cutoff : Int), some .ErrRange)
      else (if neg then -(r.1 : Int) else (r.1 : Int), none)

/-- The table `digits` of `strconv`. -/
def digits : GoString := ascii "0123456789abcdefghijklmnopqrstuvwxyz"

/-- The base-16 digit loop of `formatBits` (shift and mask), writing right to left; the first
argument counts the free positions of the 65-byte buffer. -/
def formatLoop : Nat → Nat → GoString → GoString
  | 0, _, acc => acc
  | free + 1, u, acc =>
    if 16 ≤ u then formatLoop free (u >>> 4) (digits.getD (u &&& 15) 0 :: acc)
    else digits.getD u 0 :: acc

/-- Conversion of an `int64` to `uint64`. -/
def toUint64 (i : Int) : Nat := (i % 2 ^ 64).toNat

/-- `strconv.AppendInt(dst, i, 16)` on an empty `dst`: `formatBits` on the magnitude, with a
leading `'-'` for a negative number. -/
def AppendInt16 (i : Int) : GoString :=
  let u := if i < 0 then (2 ^ 64 - toUint64 i) % 2 ^ 64 else toUint64 i
  let a := formatLoop 64 u []
  if i < 0 then (45 : Byte) :: a else a

/-- Two's-complement wrap of an integer to `int64`. -/
def wrapInt64 (x : Int) : Int := (x + 2 ^ 63) % 2 ^ 64 - 2 ^ 63

/-! ## The token codec (`verify`, `signature`) -/

/-- The function `verify(secret, value)` at clock reading `now` (`time.Now().Unix()`).
The error of `ParseInt` is discarded, as in the source: only the returned number is
compared with the clock. -/
def verify (now : Int) (secret value : GoString) : Option Bool :=
  let i := stringsIndex value dot
  if i ≤ 0 then some false
  else do
    let p ← slice value 0 i
    let t := (ParseInt p 16 63).1
    if t < now then some false
    else do
      let mac ← slice (hmacMd5 secret p) 4 12
      let sfx ← sliceFrom value (i + 1)
      some (decide (sfx = hexEncode mac))

/-- The function `signature(secret, ttl)` at clock reading `now`. The token is assembled in
the 64-byte array `cache`; `none` is the panic of writing past it. -/
def signature (now : Int) (secret : GoString) (ttl : Int) : Option GoString := do
  let b := AppendInt16 (wrapInt64 (now + ttl))
  let mac ← slice (hmacMd5 secret b) 4 12
  let b1 := b ++ [dot]
  if 64 < b1.length + 2 * mac.length then none
  else some (b1 ++ hexEncode mac)

/-- Bytes 4 to 11 of the keyed digest of `p` under `secret`: the part of the MAC that a
token carries. -/
def truncatedDigest (secret p : GoString) : GoString := ((hmacMd5 secret p).take 12).drop 4

/-- A byte that is a lowercase hexadecimal digit, `0`-`9` or `a`-`f`. -/
def isLowerHex (c : Byte) : Prop := (48 ≤ c.val ∧ c.val ≤ 57) ∨ (97 ≤ c.val ∧ c.val ≤ 102)

instance (c : Byte) : Decidable (isLowerHex c) := by unfold isLowerHex; infer_instance

/-- A byte that is a hexadecimal digit of either case. -/
def isHexDigit (c : Byte) : Prop :=
  (48 ≤ c.val ∧ c.val ≤ 57) ∨ (97 ≤ c.val ∧ c.val ≤ 102) ∨ (65 ≤ c.val ∧ c.val ≤ 70)

instance (c : Byte) : Decidable (isHexDigit c) := by unfold isHexDigit; infer_instance

/-! ## The one-time code generator (`nonce`) -/

/-- The table `smallsString` of `strconv`: the two-digit renderings of 0..99. -/
def smallsString : GoString :=
  ascii ("00010203040506070809101112131415161718192021222324252627282930313233343536373839"
    ++ "40414243444546474849505152535455565758596061626364656667686970717273747576777879"
    ++ "8081828384858687888990919293949596979899")

/-- The base-10 digit loop of `formatBits`: two digits per round while the value is at least
100, then the last one or two digits; the first argument bounds the rounds by the buffer. -/
def formatLoop10 : Nat → Nat → GoString → GoString
  | 0, _, acc => acc
  | free + 1, us, acc =>
    if 100 ≤ us then
      formatLoop10 free (us / 100)
        (smallsString.getD (us % 100 * 2) 0 :: smallsString.getD (us % 100 * 2 + 1) 0 :: acc)
    else if 10 ≤ us then smallsString.getD (us * 2) 0 :: smallsString.getD (us * 2 + 1) 0 :: acc
    else smallsString.getD (us * 2 + 1) 0 :: acc

/-- `strconv.FormatInt(i, 10)`: the table lookup `small` below 100, `formatBits` otherwise. -/
def FormatInt10 (i : Int) : GoString :=
  if 0 ≤ i ∧ i < 100 then
    (if i < 10 then [digits.getD i.toNat 0]
     else [smallsString.getD (i.toNat * 2) 0, smallsString.getD (i.toNat * 2 + 1) 0])
  else
    let u := if i < 0 then (2 ^ 64 - toUint64 i) % 2 ^ 64 else toUint64 i
    let a := formatLoop10 32 u []
    if i < 0 then (45 : Byte) :: a else a

/-- The function `nonce()`, given the number `r` that `rand.Int(rand.Reader, 8999)` drew
(`0 ≤ r < 8999`). -/
def nonce (r : Nat) : GoString := FormatInt10 (wrapInt64 ((r : Int) + 1000))

/-! ## The one-time-code store (`mapping`, a `sync.Map`) -/

/-- The contents of `mapping`: for each mail address the pending code, if any. The program
stores only strings, so the type assertion `v.(string)` cannot fail. -/
abbrev Store := GoString → Option GoString

/-- The empty map `sync.Map{}`. -/
def Store.empty : Store := fun _ => none

/-- The call `mapping.Store(key, val)`. -/
def Store.store (m : Store) (key val : GoString) : Store :=
  fun k => if k = key then some val else m k

/-- The call `mapping.LoadAndDelete(key)`: the value that was present, and the map without the
key. -/
def Store.loadAndDelete (m : Store) (key : GoString) : Option GoString × Store :=
  (m key, fun k => if k = key then none else m k)

/-- The condition of the `default` case of `login`:
`v, ok := mapping.LoadAndDelete(mail); ok && code == v.(string)`, with the store afterwards. -/
def consume (m : Store) (mail code : GoString) : Bool × Store :=
  let r := m.loadAndDelete mail
  (match r.1 with
   | some v => decide (code = v)
   | none => false, r.2)

/-- The case `"" == code` of `login` as far as the store goes: the drawn code replaces
whatever was pending for `mail`. -/
def issue (m : Store) (mail : GoString) (r : Nat) : GoString × Store :=
  (nonce r, m.store mail (nonce r))

/-- An operation on the store made by a request: storing a code or consuming one. -/
inductive StoreOp where
  | issued (mail code : GoString)
  | verified (mail code : GoString)

/-- The store after one operation. -/
def StoreOp.apply (m : Store) : StoreOp → Store
  | .issued mail code => m.store mail code
  | .verified mail code => (consume m mail code).2

/-- The store after a sequence of operations in order. -/
def applyOps (m : Store) (ops : List StoreOp) : Store := ops.foldl StoreOp.apply m

/-- The operation stores a code for `mail`. -/
def StoreOp.issuesFor (mail : GoString) : StoreOp → Prop
  | .issued k _ => k = mail
  | .verified _ _ => False

/-- The results of `n` successive verifications of `(mail, code)`, first to last. -/
def verifyTimes : Nat → Store → GoString → GoString → List Bool
  | 0, _, _, _ => []
  | n + 1, m, mail, code => (consume m mail code).1 :: verifyTimes n (consume m mail code).2 mail code

/-! ## Concurrent verifications

Each request runs in its own goroutine. A verification touches the shared map in one atomic
step, `LoadAndDelete`; the comparison with the submitted code is local to the goroutine. An
interleaving is a schedule: the sequence of goroutines that take their next step. -/

/-- Where one verifying goroutine stands. -/
inductive Thread where
  | pending
  | loaded (v : Option GoString)
  | done (result : Bool)
deriving DecidableEq

/-- The shared map together with the goroutines verifying `(mail, code)`. -/
structure Conc where
  store : Store
  threads : List Thread

/-- One step of goroutine `i`: a pending one performs `LoadAndDelete(mail)`, one that has
loaded evaluates `ok && code == v.(string)` and returns, a finished one does nothing. -/
def Conc.step (mail code : GoString) (s : Conc) (i : Nat) : Conc :=
  match s.threads.get? i with
  | some .pending =>
    ⟨(s.store.loadAndDelete mail).2, s.threads.set i (.loaded (s.store.loadAndDelete mail).1)⟩
  | some (.loaded v) =>
    ⟨s.store, s.threads.set i (.done (match v with
      | some x => decide (code = x)
      | none => false))⟩
  | _ => s

/-- The state after a schedule. -/
def Conc.run (mail code : GoString) (s : Conc) (sched : List Nat) : Conc :=
  sched.foldl (Conc.step mail code) s

/-- The start: `n` goroutines about to verify. -/
def Conc.start (m : Store) (n : Nat) : Conc := ⟨m, List.replicate n .pending⟩

/-- The goroutine has returned. -/
def Thread.isDone : Thread → Bool
  | .done _ => true
  | _ => false

/-- Every goroutine has returned. -/
def Conc.finished (s : Conc) : Bool := s.threads.all Thread.isDone

/-- The goroutine has returned true, or holds the loaded value that will make it do so. -/
def Thread.wins (code : GoString) : Thread → Bool
  | .loaded (some v) => decide (code = v)
  | .done b => b
  | _ => false

/-- What holds of the shared map and the goroutines at every point of every interleaving:
either the code is still stored and nobody has loaded yet, or the entry is gone and exactly
one goroutine has got, or will return, true. -/
def Conc.inv (mail code : GoString) (s : Conc) : Prop :=
  (s.store mail = some code ∧ ∀ t ∈ s.threads, t = Thread.pending) ∨
  (s.store mail = none ∧ s.threads.countP (Thread.wins code) = 1)

/-! ## The allow-list predicate (`match`) -/

/-- The byte `'@'`. -/
def atSign : Byte := 64

/-- The byte `'-'`. -/
def hyphen : Byte := 45

/-- A bracket expression of the pattern: the byte lies in one of the listed ranges. -/
def inClass (ranges : List (Nat × Nat)) (b : Byte) : Bool :=
  ranges.any (fun r => decide (r.1 ≤ b.val ∧ b.val ≤ r.2))

/-- The class `[a-zA-Z0-9]`. -/
def alnumClass : List (Nat × Nat) := [(97, 122), (65, 90), (48, 57)]

/-- The class `[a-zA-Z0-9-]`. -/
def alnumHyphenClass : List (Nat × Nat) := [(97, 122), (65, 90), (48, 57), (45, 45)]

/-- The class of the local part: letters, digits and the bytes
`. ! # $ % & ' * + / = ? ^ _` together with the backquote, the braces, `|`, `~` and `-`. -/
def localClass : List (Nat × Nat) :=
  [(97, 122), (65, 90), (48, 57), (46, 46), (33, 33), (35, 35), (36, 36), (37, 37), (38, 38),
   (39, 39), (42, 42), (43, 43), (47, 47), (61, 61), (63, 63), (94, 94), (95, 95), (96, 96),
   (123, 123), (124, 124), (125, 125), (126, 126), (45, 45)]

/-- The regular expression of a bracket expression: the alternation of its bytes. -/
@[irreducible]
def reClass (ranges : List (Nat × Nat)) : RegularExpression Byte :=
  ((List.finRange 256).filter (inClass ranges)).foldr
    (fun b r => RegularExpression.char b + r) 0

/-- The operator `?`. -/
def reOpt (r : RegularExpression Byte) : RegularExpression Byte := 1 + r

/-- The operator `+`. -/
def rePlus (r : RegularExpression Byte) : RegularExpression Byte := r * r.star

/-- The operator `{0,n}`. -/
def reUpTo : Nat → RegularExpression Byte → RegularExpression Byte
  | 0, _ => 1
  | n + 1, r => reOpt (r * reUpTo n r)

/-- The sub-pattern `[a-zA-Z0-9](?:[a-zA-Z0-9-]{0,61}[a-zA-Z0-9])?` of one domain label. -/
def reLabel : RegularExpression Byte :=
  reClass alnumClass * reOpt (reUpTo 61 (reClass alnumHyphenClass) * reClass alnumClass)

/-- The pattern compiled in `match`, between its anchors `^` and `$`: the local part, `@`,
a label, and any number of `.`-prefixed labels. -/
def emailRe : RegularExpression Byte :=
  rePlus (reClass localClass) *
    (RegularExpression.char atSign * (reLabel * (RegularExpression.char dot * reLabel).star))

/-- `re.MatchString(s)` for a pattern anchored at both ends: the whole string is in the
language of the pattern. -/
def MatchString (re : RegularExpression Byte) (s : GoString) : Bool := re.rmatch s

/-- `strings.HasSuffix(s, suffix)`. -/
def HasSuffix (s suffix : GoString) : Bool :=
  decide (suffix.length ≤ s.length) && decide (s.drop (s.length - suffix.length) = suffix)

/-- The closure returned by `match(str)`, applied to `val`. -/
def matchMail (str val : GoString) : Bool := MatchString emailRe val && HasSuffix val str

/-- A letter or a digit, in the words of the specification. -/
def isAlnum (b : Byte) : Prop :=
  (97 ≤ b.val ∧ b.val ≤ 122) ∨ (65 ≤ b.val ∧ b.val ≤ 90) ∨ (48 ≤ b.val ∧ b.val ≤ 57)

instance (b : Byte) : Decidable (isAlnum b) := by unfold isAlnum; infer_instance

/-- A character allowed in the local part, in the words of the specification: a letter, a
digit, or one of the punctuation bytes of the local class. -/
def isLocalChar (b : Byte) : Prop :=
  isAlnum b ∨ b.val ∈ [46, 33, 35, 36, 37, 38, 39, 42, 43, 47, 61, 63, 94, 95, 96, 123, 124,
    125, 126, 45]

instance (b : Byte) : Decidable (isLocalChar b) := by unfold isLocalChar; infer_instance

/-- A domain label in the words of the specification: 1 to 63 characters, each a letter, a
digit or a hyphen, the first and the last not a hyphen. -/
def SpecLabel (l : GoString) : Prop :=
  1 ≤ l.length ∧ l.length ≤ 63 ∧ (∀ b ∈ l, isAlnum b ∨ b = hyphen) ∧
    l.head? ≠ some hyphen ∧ l.getLast? ≠ some hyphen

instance (l : GoString) : Decidable (SpecLabel l) := by unfold SpecLabel; infer_instance

/-- Labels written one after the other with a `'.'` between neighbours. -/
def joinDots : List GoString → GoString
  | [] => []
  | [l] => l
  | l :: rest => l ++ dot :: joinDots rest

/-- The email grammar in the words of the specification: a non-empty local part of allowed
characters, exactly one `'@'`, then dot-separated labels. -/
def SpecEmail (v : GoString) : Prop :=
  ∃ (loc : GoString) (labels : List GoString),
    v = loc ++ atSign :: joinDots labels ∧ loc ≠ [] ∧ (∀ b ∈ loc, isLocalChar b) ∧
      labels ≠ [] ∧ (∀ l ∈ labels, SpecLabel l) ∧ v.count atSign = 1

/-- The part of an address after its first `'@'`. -/
def afterAt : GoString → GoString
  | [] => []
  | b :: rest => if b = atSign then rest else afterAt rest

/-! ## `path` and `net/http`: the `Location` header and the `Set-Cookie` line -/

/-- The byte `'/'`. -/
def slash : Byte := 47

/-- The byte `'?'`. -/
def question : Byte := 63

/-- The byte `'%'`. -/
def percent : Byte := 37

/-- `strings.LastIndex(s, sep)` for a one-byte separator: the position of its last
occurrence, if any. -/
def lastIndexByte (c : Byte) (s : GoString) : Option Nat :=
  (indexByte c s.reverse).map (fun k => s.length - 1 - k)

/-- The directory part of `path.Split(p)`: `p[:i+1]` for the last `'/'` at `i`, empty when
there is none. -/
def pathSplitDir (p : GoString) : GoString :=
  match lastIndexByte slash p with
  | some i => p.take (i + 1)
  | none => []

/-- The backtracking of `path.Clean` at a `..` element, from `out.w--` on:
`for out.w > dotdot && out.index(out.w) != '/' { out.w-- }`; the result is the new `out.w`. -/
def cleanBacktrack (out : GoString) (dotdot : Nat) : Nat → Nat
  | 0 => 0
  | w + 1 =>
    if dotdot < w + 1 ∧ out.getD (w + 1) 0 ≠ slash then cleanBacktrack out dotdot w else w + 1

/-- The loop `for r < n` of `path.Clean`: the unread part `path[r:]`, the buffer written so
far and the index `dotdot`. Every round reads at least one byte; the first argument bounds
the rounds by the length of the path. -/
def cleanLoop (rooted : Bool) : Nat → GoString → GoString → Nat → GoString
  | 0, _, out, _ => out
  | _ + 1, [], out, _ => out
  | fuel + 1, c :: rest, out, dotdot =>
    if c = slash then cleanLoop rooted fuel rest out dotdot
    else if c = dot ∧ (rest = [] ∨ rest.head? = some slash) then
      cleanLoop rooted fuel rest out dotdot
    else if c = dot ∧ rest.head? = some dot ∧
        (rest.tail = [] ∨ rest.tail.head? = some slash) then
      if dotdot < out.length then
        cleanLoop rooted fuel rest.tail
          (out.take (cleanBacktrack out dotdot (out.length - 1))) dotdot
      else if rooted = false then
        let out1 := (if 0 < out.length then out ++ [slash] else out) ++ [dot, dot]
        cleanLoop rooted fuel rest.tail out1 out1.length
      else cleanLoop rooted fuel rest.tail out dotdot
    else
      let out1 :=
        if (rooted = true ∧ out.length ≠ 1) ∨ (rooted = false ∧ out.length ≠ 0) then
          out ++ [slash]
        else out
      cleanLoop rooted fuel ((c :: rest).dropWhile (fun b => decide (b ≠ slash)))
        (out1 ++ (c :: rest).takeWhile (fun b => decide (b ≠ slash))) dotdot

/-- `path.Clean(p)`. -/
def pathClean (p : GoString) : GoString :=
  if p = [] then [dot]
  else
    let out :=
      if p.head? = some slash then cleanLoop true p.length p.tail [slash] 1
      else cleanLoop false p.length p [] 0
    if out = [] then [dot] else out

/-- `hexEscapeNonASCII(s)` of `net/http`: every byte from `0x80` on becomes `'%'` followed
by its two hexadecimal digits. -/
def hexEscapeNonASCII (s : GoString) : GoString :=
  s.flatMap (fun b => if 128 ≤ b.val then percent :: AppendInt16 (b.val : Int) else [b])

/-- The value that `http.Redirect(w, r, url, code)` sets for the `Location` header, with
`oldpath = r.URL.Path`. `relative` says whether `url.Parse(url)` returned without error a URL
with empty scheme and empty host: such a target is made absolute against the directory of
the request path and cleaned, its query kept; any other target is left as it is. -/
def redirectLocation (relative : Bool) (oldpath url : GoString) : GoString :=
  hexEscapeNonASCII
    (if relative = true then
      let oldpath1 := if oldpath = [] then [slash] else oldpath
      let url1 := if url = [] ∨ url.head? ≠ some slash then pathSplitDir oldpath1 ++ url else url
      let cut : GoString × GoString :=
        match indexByte question url1 with
        | some i => (url1.take i, url1.drop i)
        | none => (url1, [])
      let trailing := HasSuffix cut.1 [slash]
      let cleaned := pathClean cut.1
      let cleaned1 :=
        if trailing = true ∧ HasSuffix cleaned [slash] = false then cleaned ++ [slash]
        else cleaned
      cleaned1 ++ cut.2
    else url)

/-- The bytes of an HTTP token (`httpguts.IsTokenRune`): letters, digits and
``!#$%&'*+-.^_`|~``. -/
def tokenClass : List (Nat × Nat) :=
  [(33, 33), (35, 39), (42, 43), (45, 46), (48, 57), (65, 90), (94, 122), (124, 124),
    (126, 126)]

/-- `isCookieNameValid(raw)` of `net/http`: not empty, and no rune that is not a token rune
(a byte from `0x80` on never belongs to a token rune). -/
def isCookieNameValid (raw : GoString) : Bool :=
  decide (raw ≠ []) && raw.all (inClass tokenClass)

/-- `validCookieValueByte(b)` of `net/http`. -/
def validCookieValueByte (b : Byte) : Bool :=
  decide (0x20 ≤ b.val ∧ b.val < 0x7f ∧ b.val ≠ 34 ∧ b.val ≠ 59 ∧ b.val ≠ 92)

/-- `sanitizeCookieValue(v)` of `net/http` for an unquoted cookie: the invalid bytes are
dropped, and what is left is put in double quotes when it holds a space or a comma. -/
def sanitizeCookieValue (v : GoString) : GoString :=
  let v1 := v.filter validCookieValueByte
  if v1 = [] then v1
  else if (32 : Byte) ∈ v1 ∨ (44 : Byte) ∈ v1 then (34 : Byte) :: v1 ++ [34]
  else v1

/-- The loop of `isCookieDomainName`: the unread bytes, the byte `last`, the flag `ok` (a
letter has been seen) and the length `partlen` of the current label. -/
def domainNameLoop : GoString → Byte → Bool → Nat → Bool
  | [], last, ok, partlen => if last = hyphen ∨ 63 < partlen then false else ok
  | c :: rest, last, ok, partlen =>
    if (97 ≤ c.val ∧ c.val ≤ 122) ∨ (65 ≤ c.val ∧ c.val ≤ 90) then
      domainNameLoop rest c true (partlen + 1)
    else if 48 ≤ c.val ∧ c.val ≤ 57 then domainNameLoop rest c ok (partlen + 1)
    else if c = hyphen then
      if last = dot then false else domainNameLoop rest c ok (partlen + 1)
    else if c = dot then
      if last = dot ∨ last = hyphen then false
      else if 63 < partlen ∨ partlen = 0 then false
      else domainNameLoop rest c ok 0
    else false

/-- `isCookieDomainName(s)` of `net/http`: a domain name, possibly with a leading dot. -/
def isCookieDomainName (s : GoString) : Bool :=
  if s.length = 0 then false
  else if 255 < s.length then false
  else domainNameLoop (if s.head? = some dot then s.tail else s) dot false 0

/-- The loop of `parseIPv4` behind `net.ParseIP`: the unread bytes, the byte before them,
the value and the number of digits of the current field, and the number `pos` of fields
closed. A field has at least one digit, no leading zero (as from Go 1.17) and a value of at
most 255. -/
def parseIPv4Loop : GoString → Option Byte → Nat → Nat → Nat → Bool
  | [], _, _, pos, _ => decide (3 ≤ pos)
  | c :: rest, prev, val, pos, digLen =>
    if 48 ≤ c.val ∧ c.val ≤ 57 then
      if digLen = 1 ∧ val = 0 then false
      else if 255 < val * 10 + (c.val - 48) then false
      else parseIPv4Loop rest (some c) (val * 10 + (c.val - 48)) pos (digLen + 1)
    else if c = dot then
      if prev = none ∨ rest = [] ∨ prev = some dot then false
      else if pos = 3 then false
      else parseIPv4Loop rest (some c) 0 (pos + 1) 0
    else false

/-- `validCookieDomain(v)` of `net/http`: a cookie domain name, or an IP address without
`':'`, that is a dotted-decimal IPv4 address. -/
def validCookieDomain (v : GoString) : Bool :=
  isCookieDomainName v || parseIPv4Loop v none 0 0 0

/-- The `Domain` attribute that `Cookie.String` writes for the field `Domain`: none (the
empty string) for an empty or invalid domain, the domain without its leading dot otherwise. -/
def cookieDomainAttr (d : GoString) : GoString :=
  if d = [] then []
  else if validCookieDomain d = true then (if d.head? = some dot then d.tail else d)
  else []

/-- The `Max-Age` attribute that `Cookie.String` writes for the field `MaxAge`: the number
when positive, 0 when negative, none when zero. -/
def cookieMaxAgeAttr (maxAge : Int) : Option Int :=
  if 0 < maxAge then some maxAge else if maxAge < 0 then some 0 else none

/-! ## The request handler (`session`, `login`, the handler of `main`) -/

/-- The values of the command-line flags, and the message dictionary loaded at start. A key
missing from the dictionary reads as the empty string. -/
structure Config where
  secret : GoString
  domain : GoString
  name : GoString
  expires : Int
  uri : GoString
  suffix : GoString
  mailUser : GoString
  dict : GoString → GoString

/-- What the handler reads of a request: the method, `req.URL.Path`, the redirect target
`query(req)`, the value of the cookie named `cfg.name` if the request carries one, and the
form values `mail` and `code` (empty when absent). -/
structure Request where
  method : GoString
  path : GoString
  redirect : GoString
  cookie : Option GoString
  mail : GoString
  code : GoString

/-- What one run of the handler takes from outside the program: the clock, the number drawn
by `rand.Int`, the host name `url.Parse` finds in a redirect target, the error, if any, with
which the mail transport ends, and whether `url.Parse` reads the redirect target of the
request without error as a reference with neither scheme nor host. -/
structure Env where
  now : Int
  draw : Nat
  hostname : GoString → GoString
  sendErr : Option GoString
  relative : Bool

/-- The `Set-Cookie` line that `http.SetCookie` adds to the response, by its parts: the
name, the value, the `Domain` attribute (empty when the line has none), the `Max-Age`
attribute if any, and the `HttpOnly` attribute. -/
structure Cookie where
  name : GoString
  value : GoString
  domain : GoString
  maxAge : Option Int
  httpOnly : Bool
deriving DecidableEq

/-- The map `data` given to the templates: the keys `mail`, `domain`, `now`, and, when they
have been set, `message`, `code`, `required`, `to` and `from` (the last two written by the mailer). The key `dict` is the
configured dictionary in every page and is left out. -/
structure Page where
  mail : GoString
  domain : GoString
  now : Int
  message : Option GoString
  code : Option GoString
  required : Bool
  toAddr : Option GoString
  fromAddr : Option GoString
deriving DecidableEq

/-- The HTTP response: the status (200 when the handler writes none), the `Location` header,
the `Set-Cookie` line, and the context of the login page when one is rendered. -/
structure Response where
  status : Nat
  location : Option GoString
  cookie : Option Cookie
  page : Option Page
deriving DecidableEq

/-- One line of `log.Println("send mail:", mail, "code:", code, "error:", err)`. -/
structure LogLine where
  mail : GoString
  code : GoString
  err : Option GoString
deriving DecidableEq

/-- Everything a run of the handler leaves behind: the response, the store, the calls of the
mail collaborator (recipient and context), and the log. -/
structure Outcome where
  resp : Response
  store : Store
  mails : List (GoString × Page)
  log : List LogLine

/-- The response of a handler that has written nothing. -/
def Response.blank : Response := ⟨200, none, none, none⟩

/-- `tmpl.ExecuteTemplate(resp, "login.html", data)`: the login page with its context. -/
def render (data : Page) : Response := ⟨200, none, none, some data⟩

/-- `http.MethodGet`. -/
def MethodGet : GoString := ascii "GET"

/-- The first closure of `session`: a request without the cookie is not checked, one with
the cookie is as valid as `verify` says. -/
def check (cfg : Config) (now : Int) (req : Request) : Option Bool :=
  match req.cookie with
  | some v => verify now cfg.secret v
  | none => some false

/-- `http.SetCookie(w, &http.Cookie{Name, Value, Domain, MaxAge, HttpOnly})`: the line
`Cookie.String` renders is added to the response; a cookie whose name is not valid renders
as the empty string and nothing is added. -/
def SetCookie (name value domain : GoString) (maxAge : Int) (httpOnly : Bool)
    (resp : Response) : Response :=
  if isCookieNameValid name = true then
    { resp with cookie := some ⟨name, sanitizeCookieValue value, cookieDomainAttr domain,
        cookieMaxAgeAttr maxAge, httpOnly⟩ }
  else resp

/-- The second closure of `session`: hands `http.SetCookie` a cookie with a fresh token and
returns true. -/
def setup (cfg : Config) (now : Int) (resp : Response) : Option (Bool × Response) := do
  let v ← signature now cfg.secret cfg.expires
  some (true, SetCookie cfg.name v cfg.domain cfg.expires true resp)

/-- The closure `login`. The four cases of its `switch` in order: a GET, a rejected mail
address, an empty code, and the consumption of a submitted code. -/
def login (cfg : Config) (env : Env) (m : Store) (req : Request) : Option (Bool × Outcome) :=
  let data : Page :=
    ⟨req.mail, env.hostname req.redirect, env.now, none, none, false, none, none⟩
  if req.method = MethodGet then
    some (false, ⟨render data, m, [], []⟩)
  else if matchMail cfg.suffix req.mail = false then
    some (false, ⟨render { data with message := some (cfg.dict (ascii "mail.reject")) }, m, [], []⟩)
  else if req.code = [] then
    let code := (issue m req.mail env.draw).1
    let data1 : Page :=
      { data with code := some code, required := true,
                  message := some (cfg.dict (ascii "captcha.sent")) }
    let data2 : Page := { data1 with toAddr := some req.mail, fromAddr := some cfg.mailUser }
    some (false, ⟨render data2, (issue m req.mail env.draw).2, [(req.mail, data1)],
      [⟨req.mail, code, env.sendErr⟩]⟩)
  else
    let r := consume m req.mail req.code
    if r.1 = true then do
      let s ← setup cfg env.now Response.blank
      some (s.1, ⟨s.2, r.2, [], []⟩)
    else
      some (false,
        ⟨render { data with message := some (cfg.dict (ascii "captcha.failed")) }, r.2, [], []⟩)

/-- The statement `if "" != redirect { http.Redirect(resp, req, redirect, 302) }`. -/
def redirectIfAny (env : Env) (req : Request) (resp : Response) : Response :=
  if req.redirect = [] then resp
  else { resp with status := 302,
                   location := some (redirectLocation env.relative req.path req.redirect) }

/-- The handler passed to `http.ListenAndServe`: a valid session, or a successful login on
the login path, is answered with the redirect if any; any other request off the login path
with status 401. -/
def handle (cfg : Config) (env : Env) (m : Store) (req : Request) : Option Outcome := do
  let ok ← check cfg env.now req
  if ok = true then
    some ⟨redirectIfAny env req Response.blank, m, [], []⟩
  else if cfg.uri = req.path then do
    let r ← login cfg env m req
    if r.1 = true then some { r.2 with resp := redirectIfAny env req r.2.resp }
    else some r.2
  else
    some ⟨⟨401, none, none, none⟩, m, [], []⟩

/-! ## Sample configuration and requests -/

/-- A configuration: secret and cookie name `portier`, cookie lifetime 3600, login path
`/login`, required suffix `allowed.com`. -/
def sampleCfg : Config where
  secret := ascii "portier"
  domain := []
  name := ascii "portier"
  expires := 3600
  uri := ascii "/login"
  suffix := ascii "allowed.com"
  mailUser := ascii "noreply@allowed.com"
  dict := fun k =>
    if k = ascii "mail.reject" then ascii "rejected"
    else if k = ascii "captcha.sent" then ascii "sent"
    else if k = ascii "captcha.failed" then ascii "failed"
    else []

/-- A run at second 1000 in which `rand.Int` draws 234 and the mail transport succeeds; the
redirect targets of the sample requests (`/app`, `/next`, `?a=1`) have neither scheme nor
host. -/
def sampleEnv : Env := ⟨1000, 234, fun _ => [], none, true⟩

/-- A POST of the mail address alone to the login path, without cookie. -/
def sampleMailPost : Request :=
  ⟨ascii "POST", ascii "/login", ascii "/app", none, ascii "u@allowed.com", []⟩

/-- A POST of the mail address and the code 1234 to the login path, without cookie. -/
def sampleCodePost : Request :=
  ⟨ascii "POST", ascii "/login", ascii "/app", none, ascii "u@allowed.com", ascii "1234"⟩

/-- A GET of the login path with a `mail` parameter that is no address, without cookie. -/
def sampleGet : Request :=
  ⟨ascii "GET", ascii "/login", [], none, ascii "not-an-email", []⟩

/-- A GET of another path with the cookie issued at second 1000 for 3600 seconds. -/
def sampleSessionGet : Request :=
  ⟨ascii "GET", ascii "/app", ascii "/next", some (ascii "11f8.04747215074f0b5c"), [], []⟩

/-- A GET of another path without cookie. -/
def sampleAnonymousGet : Request :=
  ⟨ascii "GET", ascii "/app", ascii "/next", none, [], []⟩

/-- A GET of `/dir/page` with the redirect target `?a=1` and the cookie issued at second
1000 for 3600 seconds. -/
def sampleSessionQuery : Request :=
  ⟨ascii "GET", ascii "/dir/page", ascii "?a=1", some (ascii "11f8.04747215074f0b5c"), [], []⟩

/-- The store in which the code 1234 is pending for `u@allowed.com`. -/
def sampleStore : Store := Store.empty.store (ascii "u@allowed.com") (ascii "1234")


/-! ## Auxiliary facts: digest, hex encoding, index -/

theorem md5_length (msg : GoString) : (md5 msg).length = 16 := by
  simp [md5, leBytes32]

theorem hmacMd5_length (key msg : GoString) : (hmacMd5 key msg).length = 16 := by
  simp [hmacMd5, md5_length]

theorem truncatedDigest_length (secret p : GoString) : (truncatedDigest secret p).length = 8 := by
  simp [truncatedDigest, hmacMd5_length]

theorem slice_mac (secret p : GoString) :
    slice (hmacMd5 secret p) 4 12 = some (truncatedDigest secret p) := by
  simp [slice, hmacMd5_length, truncatedDigest]

theorem hexEncode_length (s : GoString) : (hexEncode s).length = 2 * s.length := by
  induction s with
  | nil => rfl
  | cons v rest ih => simp [hexEncode, ih]; omega

set_option maxRecDepth 100000 in
theorem hextable_lower : ∀ k < 16, isLowerHex (hextable.getD k 0) := by decide

theorem hexEncode_lower (s : GoString) : ∀ c ∈ hexEncode s, isLowerHex c := by
  induction s with
  | nil => simp [hexEncode]
  | cons v rest ih =>
    intro c hc
    simp only [hexEncode, List.mem_cons] at hc
    have h1 : v.val >>> 4 < 16 := by
      have := v.isLt
      rw [Nat.shiftRight_eq_div_pow]; omega
    have h2 : v.val &&& 0x0f < 16 := by
      have : v.val &&& 15 ≤ 15 := Nat.and_le_right
      omega
    rcases hc with hc | hc | hc
    · rw [hc]; exact hextable_lower _ h1
    · rw [hc]; exact hextable_lower _ h2
    · exact ih c hc

theorem dot_not_lowerHex : ¬ isLowerHex dot := by decide

theorem indexByte_eq_none {c : Byte} {s : GoString} (h : c ∉ s) : indexByte c s = none := by
  induction s with
  | nil => rfl
  | cons b rest ih =>
    simp only [List.mem_cons, not_or] at h
    simp [indexByte, Ne.symm h.1, ih h.2]

theorem indexByte_append {c : Byte} (P S : GoString) (h : c ∉ P) :
    indexByte c (P ++ c :: S) = some P.length := by
  induction P with
  | nil => simp [indexByte]
  | cons b rest ih =>
    simp only [List.mem_cons, not_or] at h
    simp [indexByte, Ne.symm h.1, ih h.2]

theorem indexByte_split {c : Byte} {s : GoString} {k : Nat} (h : indexByte c s = some k) :
    ∃ P S, s = P ++ c :: S ∧ c ∉ P ∧ P.length = k := by
  induction s generalizing k with
  | nil => simp [indexByte] at h
  | cons b rest ih =>
    by_cases hb : b = c
    · subst hb
      simp [indexByte] at h
      exact ⟨[], rest, by simp, by simp, by simpa using h⟩
    · simp only [indexByte, hb, if_false, Option.map_eq_some'] at h
      obtain ⟨j, hj, rfl⟩ := h
      obtain ⟨P, S, hs, hP, hl⟩ := ih hj
      exact ⟨b :: P, S, by simp [hs], by simp [hP, Ne.symm hb], by simp [hl]⟩

theorem verify_split (now : Int) (secret P S : GoString) (hP : P ≠ []) (hd : dot ∉ P) :
    verify now secret (P ++ dot :: S) =
      some (decide (now ≤ (ParseInt P 16 63).1) &&
        decide (S = hexEncode (truncatedDigest secret P))) := by
  have hlen : 0 < P.length := List.length_pos.mpr hP
  have hi : stringsIndex (P ++ dot :: S) dot = (P.length : Int) := by
    simp [stringsIndex, indexByte_append P S hd]
  have h1 : slice (P ++ dot :: S) 0 (P.length : Int) = some P := by
    unfold slice
    rw [if_pos ⟨le_refl _, by omega, by simp; omega⟩]
    simp
  have h2 : sliceFrom (P ++ dot :: S) ((P.length : Int) + 1) = some S := by
    have e1 : ((P.length : Int) + 1).toNat = P.length + 1 := by omega
    have e2 : (((P ++ dot :: S).length : Nat) : Int).toNat = (P ++ dot :: S).length := by omega
    unfold sliceFrom slice
    rw [if_pos ⟨by omega, by simp, le_refl _⟩, e1, e2, List.take_length]
    simp
  unfold verify
  simp only [hi]
  rw [if_neg (by omega)]
  simp only [h1, h2, slice_mac, Option.bind_eq_bind, Option.some_bind]
  by_cases ht : (ParseInt P 16 63).1 < now
  · simp [ht, not_le.mpr ht]
  · simp [ht, not_lt.mp ht]

theorem verify_defined (now : Int) (secret value : GoString) :
    ∃ b, verify now secret value = some b := by
  cases h : indexByte dot value with
  | none => exact ⟨false, by simp [verify, stringsIndex, h]⟩
  | some k =>
    obtain ⟨P, S, rfl, hd, hl⟩ := indexByte_split h
    by_cases hP : P = []
    · subst hP
      exact ⟨false, by simp [verify, stringsIndex, indexByte]⟩
    · exact ⟨_, verify_split now secret P S hP hd⟩


/-! ## Auxiliary facts: hexadecimal formatting and parsing -/

set_option maxRecDepth 100000 in
theorem digitVal_digits : ∀ k < 16, digitVal (digits.getD k 0) = some k := by decide

set_option maxRecDepth 100000 in
theorem digits_lower : ∀ k < 16, isLowerHex (digits.getD k 0) := by decide

set_option maxRecDepth 100000 in
theorem digits_ne_zero : ∀ k < 16, 0 < k → digits.getD k 0 ≠ (48 : Byte) := by decide

theorem parseUintLoop_digit (rest : GoString) (n d : Nat) (hd : d < 16) (hn : n * 16 + d < 2 ^ 63) :
    parseUintLoop 16 (2 ^ 63 - 1) (digits.getD d 0 :: rest) n =
      parseUintLoop 16 (2 ^ 63 - 1) rest (n * 16 + d) := by
  rw [parseUintLoop, digitVal_digits d hd]
  have h1 : ¬ (16 ≤ d) := by omega
  have h2 : ¬ ((2 ^ 64 - 1) / 16 + 1 ≤ n) := by omega
  have h3 : n * 16 % 2 ^ 64 = n * 16 := Nat.mod_eq_of_lt (by omega)
  have h4 : (n * 16 + d) % 2 ^ 64 = n * 16 + d := Nat.mod_eq_of_lt (by omega)
  simp only [h1, h2, if_false, h3, h4]
  rw [if_neg (by omega)]

theorem formatLoop_parse (free : Nat) : ∀ (u : Nat) (acc : GoString), u < 16 ^ free → u < 2 ^ 63 →
    parseUintLoop 16 (2 ^ 63 - 1) (formatLoop free u acc) 0 =
      parseUintLoop 16 (2 ^ 63 - 1) acc u := by
  induction free with
  | zero =>
    intro u acc h _
    have : u = 0 := by simpa using h
    subst this
    rfl
  | succ k ih =>
    intro u acc h h63
    rw [formatLoop]
    by_cases hu : 16 ≤ u
    · rw [if_pos hu, Nat.shiftRight_eq_div_pow]
      have hm : u &&& 15 = u % 16 := Nat.and_pow_two_sub_one_eq_mod u 4
      rw [hm]
      have hk : u / 2 ^ 4 < 16 ^ k := by
        rw [pow_succ] at h
        omega
      rw [ih _ _ hk (by omega), parseUintLoop_digit _ _ _ (Nat.mod_lt _ (by decide)) (by omega)]
      congr 1
      omega
    · rw [if_neg hu]
      have := parseUintLoop_digit acc 0 u (by omega) (by omega)
      simpa using this

theorem formatLoop_shape (free : Nat) : ∀ (k u : Nat) (acc : GoString),
    1 ≤ k → k ≤ free → u < 16 ^ k →
    ∃ d ds, formatLoop free u acc = digits.getD d 0 :: ds ++ acc ∧ d < 16 ∧ (0 < u → 0 < d) ∧
      (∀ c ∈ ds, isLowerHex c) ∧ ds.length + 1 ≤ k := by
  induction free with
  | zero => intro k u acc h1 h2; omega
  | succ f ih =>
    intro k u acc h1 h2 hu
    rw [formatLoop]
    by_cases h16 : 16 ≤ u
    · rw [if_pos h16, Nat.shiftRight_eq_div_pow]
      have hm : u &&& 15 = u % 16 := Nat.and_pow_two_sub_one_eq_mod u 4
      rw [hm]
      have hk2 : 2 ≤ k := by
        by_contra hc
        have : k = 1 := by omega
        subst this
        simp at hu
        omega
      have hk : u / 2 ^ 4 < 16 ^ (k - 1) := by
        obtain ⟨j, rfl⟩ : ∃ j, k = j + 1 := ⟨k - 1, by omega⟩
        rw [pow_succ] at hu
        simp only [Nat.add_sub_cancel]
        omega
      obtain ⟨d, ds, he, hd, hpos, hall, hlen⟩ :=
        ih (k - 1) (u / 2 ^ 4) (digits.getD (u % 16) 0 :: acc) (by omega) (by omega) hk
      refine ⟨d, ds ++ [digits.getD (u % 16) 0], ?_, hd, fun _ => hpos (by omega), ?_, ?_⟩
      · rw [he]; simp
      · intro c hc
        rcases List.mem_append.mp hc with hc | hc
        · exact hall c hc
        · rw [List.mem_singleton.mp hc]
          exact digits_lower _ (Nat.mod_lt _ (by decide))
      · simp; omega
    · rw [if_neg h16]
      exact ⟨u, [], by simp, by omega, fun h => h, by simp, by simpa using h1⟩


theorem lowerHex_not_sign {c : Byte} (h : isLowerHex c) : c ≠ 43 ∧ c ≠ 45 ∧ c ≠ dot := by
  unfold isLowerHex at h
  refine ⟨?_, ?_, ?_⟩ <;> (intro hc; subst hc; revert h; decide)

theorem AppendInt16_eq (e : Int) (h0 : 0 ≤ e) (h62 : e < 2 ^ 62) :
    AppendInt16 e = formatLoop 64 e.toNat [] := by
  unfold AppendInt16 toUint64
  rw [if_neg (by omega), if_neg (by omega)]
  congr 1
  omega

theorem AppendInt16_shape (e : Int) (h0 : 0 ≤ e) (h62 : e < 2 ^ 62) :
    ∃ d ds, AppendInt16 e = digits.getD d 0 :: ds ∧ d < 16 ∧ (0 < e → 0 < d) ∧
      (∀ c ∈ ds, isLowerHex c) ∧ ds.length + 1 ≤ 16 := by
  have hu : e.toNat < 16 ^ 16 := by
    have : (16 : Nat) ^ 16 = 2 ^ 64 := by norm_num
    omega
  obtain ⟨d, ds, he, hd, hpos, hall, hlen⟩ :=
    formatLoop_shape 64 16 e.toNat [] (by omega) (by omega) hu
  exact ⟨d, ds, by rw [AppendInt16_eq e h0 h62, he]; simp, hd, fun h => hpos (by omega), hall, hlen⟩

theorem AppendInt16_lower (e : Int) (h0 : 0 ≤ e) (h62 : e < 2 ^ 62) :
    ∀ c ∈ AppendInt16 e, isLowerHex c := by
  obtain ⟨d, ds, he, hd, _, hall, _⟩ := AppendInt16_shape e h0 h62
  intro c hc
  rw [he] at hc
  rcases List.mem_cons.mp hc with hc | hc
  · rw [hc]; exact digits_lower d hd
  · exact hall c hc

theorem ParseInt_AppendInt16 (e : Int) (h0 : 0 ≤ e) (h62 : e < 2 ^ 62) :
    ParseInt (AppendInt16 e) 16 63 = (e, none) := by
  obtain ⟨d, ds, he, hd, _, _, _⟩ := AppendInt16_shape e h0 h62
  have hs := lowerHex_not_sign (digits_lower d hd)
  have hloop : parseUintLoop 16 (2 ^ 63 - 1) (AppendInt16 e) 0 = (e.toNat, none) := by
    rw [AppendInt16_eq e h0 h62, formatLoop_parse 64 e.toNat [] (by
      have : (16 : Nat) ^ 64 = 2 ^ 256 := by norm_num
      have h2 : (2 : Nat) ^ 62 < 2 ^ 256 := Nat.pow_lt_pow_right (by decide) (by decide)
      omega) (by omega)]
    rfl
  have hU : ParseUint (AppendInt16 e) 16 63 = (e.toNat, none) := by
    unfold ParseUint
    rw [if_neg (by rw [he]; simp), hloop]
  rw [he] at hU ⊢
  unfold ParseInt
  simp only [hs.1, hs.2.1, or_self, if_false, hU]
  have hc : ¬ ((2 : Nat) ^ (63 - 1) ≤ e.toNat) := by
    have : (2 : Nat) ^ (63 - 1) = 2 ^ 62 := by norm_num
    omega
  simp only [Int.ofNat_toNat, decide_False, Bool.false_eq_true, not_false_eq_true, true_and,
    false_and, if_false, hc]
  rw [max_eq_left h0, if_neg (by simp)]


theorem dot_not_mem_of_lower {s : GoString} (h : ∀ c ∈ s, isLowerHex c) : dot ∉ s :=
  fun hd => dot_not_lowerHex (h dot hd)

theorem wrapInt64_eq (x : Int) (h0 : 0 ≤ x) (h62 : x < 2 ^ 62) : wrapInt64 x = x := by
  unfold wrapInt64
  omega

theorem signature_eq (now : Int) (secret : GoString) (ttl : Int) (h0 : 0 ≤ now + ttl)
    (h62 : now + ttl < 2 ^ 62) :
    signature now secret ttl = some (AppendInt16 (now + ttl) ++
      dot :: hexEncode (truncatedDigest secret (AppendInt16 (now + ttl)))) := by
  obtain ⟨d, ds, he, _, _, _, hlen⟩ := AppendInt16_shape (now + ttl) h0 h62
  have hl : (AppendInt16 (now + ttl)).length ≤ 16 := by rw [he]; simpa using hlen
  unfold signature
  rw [wrapInt64_eq _ h0 h62]
  simp only [slice_mac, Option.bind_eq_bind, Option.some_bind, truncatedDigest_length]
  rw [if_neg (by simp; omega)]
  simp

/-! ## Token codec: issue, verify -/

/-- C1 (token round trip). For a positive ttl and a clock reading `now ≥ 0` with
`now + ttl < 2^62`, `signature` returns a token; `verify` accepts it at the time of issue
and rejects it at every time later than `now + ttl`. -/
theorem token_round_trip (secret : GoString) (ttl now : Int) (ht : 0 < ttl) (hnow : 0 ≤ now)
    (h62 : now + ttl < 2 ^ 62) :
    ∃ tok, signature now secret ttl = some tok ∧ verify now secret tok = some true ∧
      ∀ later : Int, now + ttl < later → verify later secret tok = some false := by
  have h0 : 0 ≤ now + ttl := by omega
  have hlow := AppendInt16_lower (now + ttl) h0 h62
  obtain ⟨d, ds, he, _, _, _, _⟩ := AppendInt16_shape (now + ttl) h0 h62
  have hne : AppendInt16 (now + ttl) ≠ [] := by rw [he]; simp
  refine ⟨_, signature_eq now secret ttl h0 h62, ?_, ?_⟩
  · rw [verify_split now secret _ _ hne (dot_not_mem_of_lower hlow),
      ParseInt_AppendInt16 _ h0 h62]
    simp
    omega
  · intro later hl
    rw [verify_split later secret _ _ hne (dot_not_mem_of_lower hlow),
      ParseInt_AppendInt16 _ h0 h62]
    simp
    omega

/-- Witness: secret `portier`, ttl 3600, issued at second 1000. -/
theorem token_round_trip_witness :
    (0 : Int) < 3600 ∧ (0 : Int) ≤ 1000 ∧ (1000 : Int) + 3600 < 2 ^ 62 ∧
    ∃ tok, signature 1000 (ascii "portier") 3600 = some tok ∧
      verify 1000 (ascii "portier") tok = some true ∧
      ∀ later : Int, 1000 + 3600 < later → verify later (ascii "portier") tok = some false :=
  ⟨by decide, by decide, by decide,
    token_round_trip (ascii "portier") 3600 1000 (by decide) (by decide) (by decide)⟩

/-- C6 (serialized form). When `0 ≤ now + ttl < 2^62`, `signature` returns `H ++ "." ++ G`
where `H` is the rendering of `now + ttl` in lowercase hexadecimal digits, without sign and
without leading zero, that `ParseInt` reads back as `now + ttl`, and `G` is the hex
encoding, 16 lowercase hexadecimal digits, of bytes 4 to 11 of the keyed digest of `H`; the
token contains exactly one `'.'`. -/
theorem signature_serialized_form (secret : GoString) (ttl now : Int) (h0 : 0 ≤ now + ttl)
    (h62 : now + ttl < 2 ^ 62) :
    ∃ H G, signature now secret ttl = some (H ++ dot :: G) ∧
      H = AppendInt16 (now + ttl) ∧ H ≠ [] ∧ (∀ c ∈ H, isLowerHex c) ∧
      (H = [48] ∨ H.head? ≠ some 48) ∧ ParseInt H 16 63 = (now + ttl, none) ∧
      G = hexEncode (((hmacMd5 secret H).take 12).drop 4) ∧ G.length = 16 ∧
      (∀ c ∈ G, isLowerHex c) ∧ (H ++ dot :: G).count dot = 1 := by
  have hlow := AppendInt16_lower (now + ttl) h0 h62
  obtain ⟨d, ds, he, hd, hpos, _, _⟩ := AppendInt16_shape (now + ttl) h0 h62
  have hG := hexEncode_lower (truncatedDigest secret (AppendInt16 (now + ttl)))
  refine ⟨_, _, signature_eq now secret ttl h0 h62, rfl, by rw [he]; simp, hlow, ?_,
    ParseInt_AppendInt16 _ h0 h62, rfl, ?_, hG, ?_⟩
  · by_cases hz : now + ttl = 0
    · left; rw [hz]; decide
    · right
      rw [he]
      simpa using digits_ne_zero d hd (hpos (by omega))
  · rw [hexEncode_length]
    have := truncatedDigest_length secret (AppendInt16 (now + ttl))
    omega
  · rw [List.count_append, List.count_cons_self,
      List.count_eq_zero_of_not_mem (dot_not_mem_of_lower hlow),
      List.count_eq_zero_of_not_mem (dot_not_mem_of_lower hG)]

/-- Witness: secret `portier`, ttl 3600, issued at second 1000. -/
theorem signature_serialized_form_witness :
    (0 : Int) ≤ 1000 + 3600 ∧ (1000 : Int) + 3600 < 2 ^ 62 ∧
    ∃ H G, signature 1000 (ascii "portier") 3600 = some (H ++ dot :: G) ∧
      H = AppendInt16 (1000 + 3600) ∧ H ≠ [] ∧ (∀ c ∈ H, isLowerHex c) ∧
      (H = [48] ∨ H.head? ≠ some 48) ∧ ParseInt H 16 63 = (1000 + 3600, none) ∧
      G = hexEncode (((hmacMd5 (ascii "portier") H).take 12).drop 4) ∧ G.length = 16 ∧
      (∀ c ∈ G, isLowerHex c) ∧ (H ++ dot :: G).count dot = 1 :=
  ⟨by decide, by decide,
    signature_serialized_form (ascii "portier") 3600 1000 (by decide) (by decide)⟩


theorem parseUintLoop_ok_digits (base maxVal : Nat) (s : GoString) : ∀ n : Nat,
    (parseUintLoop base maxVal s n).2 = none → ∀ c ∈ s, digitVal c ≠ none := by
  induction s with
  | nil => intro n _ c hc; simp at hc
  | cons x rest ih =>
    intro n h c hc
    rw [parseUintLoop] at h
    cases hx : digitVal x with
    | none => simp [hx] at h
    | some d =>
      simp only [hx] at h
      split_ifs at h with h1 h2 h3
      rcases List.mem_cons.mp hc with hc | hc
      · rw [hc, hx]; simp
      · exact ih _ h c hc

theorem parseUintLoop_range_val (base maxVal : Nat) (s : GoString) : ∀ n : Nat,
    (parseUintLoop base maxVal s n).2 = some .ErrRange → (parseUintLoop base maxVal s n).1 = maxVal := by
  induction s with
  | nil => intro n h; simp [parseUintLoop] at h
  | cons x rest ih =>
    intro n h
    rw [parseUintLoop] at h ⊢
    cases hx : digitVal x with
    | none => simp [hx] at h
    | some d =>
      simp only [hx] at h ⊢
      split_ifs at h ⊢ with h1 h2 h3
      · simp at h
      · rfl
      · rfl
      · exact ih _ h

theorem ParseInt_synErr_val (s : GoString) (base bitSize : Nat)
    (h : (ParseInt s base bitSize).2 = some .ErrSyntax) : (ParseInt s base bitSize).1 = 0 := by
  unfold ParseInt at h ⊢
  cases s with
  | nil => rfl
  | cons c rest =>
    simp only at h ⊢
    split_ifs at h ⊢ with h1 h2 h3 h4
    all_goals first | rfl | simp at h

theorem digitVal_dot : digitVal dot = none := by decide

theorem ParseUint_range_val (s : GoString) (h : (ParseUint s 16 63).2 = some .ErrRange) :
    (ParseUint s 16 63).1 = 2 ^ 63 - 1 := by
  unfold ParseUint at h ⊢
  split_ifs at h ⊢ with h1
  · simp at h
  · exact parseUintLoop_range_val _ _ _ _ h

theorem ParseUint_ok_no_dot (s : GoString) (h : (ParseUint s 16 63).2 = none) :
    s ≠ [] ∧ dot ∉ s := by
  unfold ParseUint at h
  split_ifs at h with h1
  exact ⟨h1, fun hd => parseUintLoop_ok_digits _ _ _ _ h dot hd digitVal_dot⟩

theorem ParseInt_ok_unsigned (c : Byte) (rest : GoString)
    (h : (ParseInt (c :: rest) 16 63).2 = none) :
    (ParseUint (if c = 43 ∨ c = 45 then rest else c :: rest) 16 63).2 = none := by
  unfold ParseInt at h
  simp only at h
  generalize (if c = 43 ∨ c = 45 then rest else c :: rest) = s1 at h ⊢
  cases hr : (ParseUint s1 16 63).2 with
  | none => rfl
  | some err =>
    exfalso
    cases err with
    | ErrSyntax => simp [hr] at h
    | ErrRange =>
      have hv := ParseUint_range_val s1 hr
      rw [hr, hv] at h
      by_cases hc : c = 45 <;> simp [hc] at h

theorem ParseInt_ok_no_dot (P : GoString) (e : Int) (h : ParseInt P 16 63 = (e, none)) :
    P ≠ [] ∧ dot ∉ P := by
  cases P with
  | nil => simp [ParseInt] at h
  | cons c rest =>
    refine ⟨by simp, ?_⟩
    have hu := ParseUint_ok_no_dot _ (ParseInt_ok_unsigned c rest (by rw [h]))
    by_cases hs : c = 43 ∨ c = 45
    · rw [if_pos hs] at hu
      intro hd
      rcases List.mem_cons.mp hd with hd | hd
      · rcases hs with hs | hs <;> (rw [hs] at hd; revert hd; decide)
      · exact hu.2 hd
    · rw [if_neg hs] at hu
      exact hu.2


/-- C2 as amended (token validity). When the parser reads the part `P` before the first
`'.'` as the integer `e` without error, `verify` returns true exactly when the part after
the `'.'` is the hex encoding of the truncated keyed digest of `P` and `now ≤ e`, and
returns false otherwise; at `e = now` a correctly signed token is accepted. -/
theorem verify_valid_iff (now : Int) (secret P S : GoString) (e : Int)
    (hP : ParseInt P 16 63 = (e, none)) :
    verify now secret (P ++ dot :: S) =
      some (decide (S = hexEncode (truncatedDigest secret P) ∧ now ≤ e)) := by
  obtain ⟨hne, hd⟩ := ParseInt_ok_no_dot P e hP
  rw [verify_split now secret P S hne hd, hP]
  by_cases h1 : S = hexEncode (truncatedDigest secret P) <;> by_cases h2 : now ≤ e <;>
    simp [h1, h2]

/-- Witness: the prefix `ff` is read as 255. -/
theorem verify_valid_iff_witness :
    ParseInt (ascii "ff") 16 63 = (255, none) ∧
    verify 255 (ascii "portier") (ascii "ff" ++ dot :: ascii "0385438761bb0f2d") =
      some (decide (ascii "0385438761bb0f2d" = hexEncode (truncatedDigest (ascii "portier") (ascii "ff"))
        ∧ (255 : Int) ≤ 255)) :=
  ⟨by decide, verify_valid_iff 255 (ascii "portier") (ascii "ff") (ascii "0385438761bb0f2d") 255
    (by decide)⟩

set_option maxRecDepth 100000 in
/-- C2 refuted as stated. The token `ff.0385438761bb0f2d` carries the expiry 255 (`ff` is the
rendering of 255 and is read back as 255) and the right signature under the secret
`portier`; at `now = 255`, where the expiry is not strictly in the future, `verify` returns
true. And with the expiry `2^62 + 1`, strictly after `now = 2^62`, and the right signature,
`verify` returns false, the parser's range ending at `2^62 - 1`. -/
theorem verify_true_at_expiry :
    (AppendInt16 255 = ascii "ff" ∧ ParseInt (ascii "ff") 16 63 = (255, none) ∧
      ascii "0385438761bb0f2d" = hexEncode (truncatedDigest (ascii "portier") (ascii "ff")) ∧
      ¬ ((255 : Int) > 255) ∧
      verify 255 (ascii "portier") (ascii "ff.0385438761bb0f2d") = some true) ∧
    (AppendInt16 (2 ^ 62 + 1) = ascii "4000000000000001" ∧
      ascii "1fc8fb065b82d9a2" =
        hexEncode (truncatedDigest (ascii "portier") (ascii "4000000000000001")) ∧
      ((2 : Int) ^ 62 + 1 > 2 ^ 62) ∧
      verify (2 ^ 62) (ascii "portier") (ascii "4000000000000001.1fc8fb065b82d9a2") =
        some false) := by
  decide

/-- C3 (tamper resistance). If `verify` accepts a token, then replacing any one byte of the
part after the first `'.'` by a different byte gives a token that `verify` rejects. -/
theorem verify_tamper_resistant (now : Int) (secret P S : GoString) (hd : dot ∉ P)
    (hv : verify now secret (P ++ dot :: S) = some true)
    (j : Nat) (hj : j < S.length) (c : Byte) (hc : c ≠ S.get ⟨j, hj⟩) :
    verify now secret (P ++ dot :: S.set j c) = some false := by
  have hne : P ≠ [] := by
    rintro rfl
    simp [verify, stringsIndex, indexByte] at hv
  rw [verify_split now secret P S hne hd] at hv
  rw [verify_split now secret P _ hne hd]
  have hS : S = hexEncode (truncatedDigest secret P) := by
    simp at hv
    exact hv.2
  have hne2 : S.set j c ≠ hexEncode (truncatedDigest secret P) := by
    rw [← hS]
    intro heq
    have h1 : (S.set j c)[j]? = some c := by
      rw [List.getElem?_set_self]
      simp [hj]
    rw [heq, List.getElem?_eq_getElem hj] at h1
    exact hc (by simpa using h1.symm)
  simp [hne2]

set_option maxRecDepth 100000 in
/-- Witness: the token issued at second 1000 for 3600 seconds
under the secret `portier`, with the first signature digit changed to `f`. -/
theorem verify_tamper_resistant_witness :
    dot ∉ ascii "11f8" ∧
    verify 1000 (ascii "portier") (ascii "11f8" ++ dot :: ascii "04747215074f0b5c") = some true ∧
    (102 : Byte) ≠ (ascii "04747215074f0b5c").get ⟨0, by decide⟩ ∧
    verify 1000 (ascii "portier") (ascii "11f8" ++ dot :: (ascii "04747215074f0b5c").set 0 102)
      = some false :=
  ⟨by decide, by decide, by decide,
    verify_tamper_resistant 1000 (ascii "portier") (ascii "11f8") (ascii "04747215074f0b5c")
      (by decide) (by decide) 0 (by decide) 102 (by decide)⟩

set_option maxRecDepth 100000 in
theorem digitVal_hexDigit : ∀ x : Byte, isHexDigit x →
    (digitVal x).any (fun d => decide (d < 16)) = true := by decide

set_option maxRecDepth 100000 in
theorem digitVal_not_hexDigit : ∀ x : Byte, ¬ isHexDigit x →
    (digitVal x).all (fun d => decide (16 ≤ d)) = true := by decide

theorem parseUintLoop_nonhex (maxVal : Nat) (h63 : 2 ^ 60 ≤ maxVal) (c : Byte)
    (hc : ¬ isHexDigit c) (R : GoString) : ∀ (D : GoString) (n j : Nat),
    (∀ x ∈ D, isHexDigit x) → n < 16 ^ j → j + D.length ≤ 15 →
    parseUintLoop 16 maxVal (D ++ c :: R) n = (0, some .ErrSyntax) := by
  intro D
  induction D with
  | nil =>
    intro n j _ _ _
    have := digitVal_not_hexDigit c hc
    rw [List.nil_append, parseUintLoop]
    cases hx : digitVal c with
    | none => rfl
    | some d =>
      rw [hx] at this
      simp at this
      simp [this]
  | cons x D ih =>
    intro n j hD hn hj
    have hx := digitVal_hexDigit x (hD x (List.mem_cons_self _ _))
    rw [List.cons_append, parseUintLoop]
    cases hv : digitVal x with
    | none => simp [hv] at hx
    | some d =>
      rw [hv] at hx
      simp at hx
      simp only [List.length_cons] at hj
      have hp : (16 : Nat) ^ (j + 1) ≤ 16 ^ 15 := Nat.pow_le_pow_right (by decide) (by omega)
      have hp2 : (16 : Nat) ^ 15 = 2 ^ 60 := by norm_num
      have hp3 : (16 : Nat) ^ (j + 1) = 16 ^ j * 16 := pow_succ 16 j
      have h1 : ¬ (16 ≤ d) := by omega
      have h2 : ¬ ((2 ^ 64 - 1) / 16 + 1 ≤ n) := by omega
      have h3 : n * 16 % 2 ^ 64 = n * 16 := Nat.mod_eq_of_lt (by omega)
      have h4 : (n * 16 + d) % 2 ^ 64 = n * 16 + d := Nat.mod_eq_of_lt (by omega)
      simp only [h1, h2, if_false, h3, h4]
      rw [if_neg (by omega)]
      exact ih (n * 16 + d) (j + 1) (fun y hy => hD y (List.mem_cons_of_mem _ hy)) (by omega)
        (by omega)

/-- A prefix in which a byte that is neither a hexadecimal digit nor a sign follows at most
15 hexadecimal digits is a syntax error for `ParseInt`. -/
theorem ParseInt_nonhex (D R : GoString) (c : Byte) (hD : ∀ x ∈ D, isHexDigit x)
    (hlen : D.length ≤ 15) (hc : ¬ isHexDigit c) (h43 : c ≠ 43) (h45 : c ≠ 45) :
    ParseInt (D ++ c :: R) 16 63 = (0, some .ErrSyntax) := by
  have hloop : ParseUint (D ++ c :: R) 16 63 = (0, some .ErrSyntax) := by
    unfold ParseUint
    rw [if_neg (by simp)]
    exact parseUintLoop_nonhex _ (by norm_num) c hc R D 0 0 hD (by norm_num) (by omega)
  cases D with
  | nil =>
    rw [List.nil_append] at hloop ⊢
    unfold ParseInt
    simp [h43, h45, hloop]
  | cons x D =>
    have hx : x ≠ 43 ∧ x ≠ 45 := by
      have := hD x (List.mem_cons_self _ _)
      constructor <;> (intro h; rw [h] at this; revert this; decide)
    rw [List.cons_append] at hloop ⊢
    unfold ParseInt
    simp [hx.1, hx.2, hloop]

theorem ParseInt_minus_nonpos (R : GoString) : (ParseInt ((45 : Byte) :: R) 16 63).1 ≤ 0 := by
  unfold ParseInt
  simp only
  split_ifs <;> simp_all

theorem verify_dot_not_mem (now : Int) (secret value : GoString) (h : dot ∉ value) :
    verify now secret value = some false := by
  simp [verify, stringsIndex, indexByte_eq_none h]

theorem verify_dot_first (now : Int) (secret S : GoString) :
    verify now secret (dot :: S) = some false := by
  simp [verify, stringsIndex, indexByte]

/-- C4 as amended (malformed tokens). At a positive clock reading `verify` is defined and
returns false on the empty string, on a string without `'.'`, on a string that starts with
`'.'`, on a string whose part before the first `'.'` is a syntax error for the parser (as it
is when a byte that is neither a hexadecimal digit nor a sign follows at most 15 hexadecimal
digits), on a string that starts with `'-'`, and on a string whose part after the first
`'.'` is not 16 bytes long. -/
theorem verify_rejects_malformed (now : Int) (hnow : 0 < now) (secret value : GoString)
    (h : value = [] ∨ dot ∉ value ∨ value.head? = some dot ∨
      (∃ P S, value = P ++ dot :: S ∧ dot ∉ P ∧ (ParseInt P 16 63).2 = some .ErrSyntax) ∨
      (∃ D c R S, value = (D ++ c :: R) ++ dot :: S ∧ dot ∉ D ++ c :: R ∧
        (∀ x ∈ D, isHexDigit x) ∧ D.length ≤ 15 ∧ ¬ isHexDigit c ∧ c ≠ 43 ∧ c ≠ 45) ∨
      (∃ R S, value = ((45 : Byte) :: R) ++ dot :: S ∧ dot ∉ R) ∨
      (∃ P S, value = P ++ dot :: S ∧ dot ∉ P ∧ S.length ≠ 16)) :
    verify now secret value = some false := by
  have hsyn : ∀ P S : GoString, dot ∉ P → (ParseInt P 16 63).2 = some .ErrSyntax →
      verify now secret (P ++ dot :: S) = some false := by
    intro P S hd he
    by_cases hP : P = []
    · subst hP; exact verify_dot_first now secret S
    · rw [verify_split now secret P S hP hd, ParseInt_synErr_val P 16 63 he]
      simp [not_le.mpr hnow]
  rcases h with h | h | h | ⟨P, S, rfl, hd, he⟩ | ⟨D, c, R, S, rfl, hd, hD, hl, hc, h43, h45⟩ |
    ⟨R, S, rfl, hd⟩ | ⟨P, S, rfl, hd, hl⟩
  · subst h; rfl
  · exact verify_dot_not_mem now secret value h
  · cases value with
    | nil => simp at h
    | cons b S =>
      simp only [List.head?_cons, Option.some.injEq] at h
      subst h
      exact verify_dot_first now secret S
  · exact hsyn P S hd he
  · exact hsyn _ S hd (by rw [ParseInt_nonhex D R c hD hl hc h43 h45])
  · have hd2 : dot ∉ (45 : Byte) :: R := by
      intro hm
      rcases List.mem_cons.mp hm with hm | hm
      · revert hm; decide
      · exact hd hm
    rw [verify_split now secret _ S (by simp) hd2]
    have := ParseInt_minus_nonpos R
    have hlt : ¬ now ≤ (ParseInt ((45 : Byte) :: R) 16 63).1 := by omega
    simp [hlt]
  · by_cases hP : P = []
    · subst hP; exact verify_dot_first now secret S
    · rw [verify_split now secret P S hP hd]
      have : S ≠ hexEncode (truncatedDigest secret P) := by
        intro heq
        apply hl
        rw [heq, hexEncode_length, truncatedDigest_length]
      simp [this]

set_option maxRecDepth 100000 in
/-- Witness: the prefix `1g` has the byte `g` after one digit. -/
theorem verify_rejects_malformed_witness :
    (0 : Int) < 1000 ∧
    (ascii "1g.04747215074f0b5c" = [] ∨ dot ∉ ascii "1g.04747215074f0b5c" ∨
      (ascii "1g.04747215074f0b5c").head? = some dot ∨
      (∃ P S, ascii "1g.04747215074f0b5c" = P ++ dot :: S ∧ dot ∉ P ∧
        (ParseInt P 16 63).2 = some .ErrSyntax) ∨
      (∃ D c R S, ascii "1g.04747215074f0b5c" = (D ++ c :: R) ++ dot :: S ∧ dot ∉ D ++ c :: R ∧
        (∀ x ∈ D, isHexDigit x) ∧ D.length ≤ 15 ∧ ¬ isHexDigit c ∧ c ≠ 43 ∧ c ≠ 45) ∨
      (∃ R S, ascii "1g.04747215074f0b5c" = ((45 : Byte) :: R) ++ dot :: S ∧ dot ∉ R) ∨
      (∃ P S, ascii "1g.04747215074f0b5c" = P ++ dot :: S ∧ dot ∉ P ∧ S.length ≠ 16)) ∧
    verify 1000 (ascii "portier") (ascii "1g.04747215074f0b5c") = some false :=
  have h : ∃ P S, ascii "1g.04747215074f0b5c" = P ++ dot :: S ∧ dot ∉ P ∧
      (ParseInt P 16 63).2 = some .ErrSyntax :=
    ⟨ascii "1g", ascii "04747215074f0b5c", by decide, by decide, by decide⟩
  ⟨by decide, Or.inr (Or.inr (Or.inr (Or.inl h))),
    verify_rejects_malformed 1000 (by decide) (ascii "portier") _
      (Or.inr (Or.inr (Or.inr (Or.inl h))))⟩

set_option maxRecDepth 100000 in
/-- C4 refuted as stated. The part before the `'.'` of `+ff.fc2d4677c12ad3aa` contains `+`,
which is not a hexadecimal digit; the parser reads `+ff` as 255, and at the positive clock
reading 1 `verify` returns true under the secret `portier`. -/
theorem verify_accepts_plus_sign :
    (43 : Byte) ∈ ascii "+ff" ∧ ¬ isHexDigit 43 ∧ dot ∉ ascii "+ff" ∧
    ascii "+ff.fc2d4677c12ad3aa" = ascii "+ff" ++ dot :: ascii "fc2d4677c12ad3aa" ∧
    ParseInt (ascii "+ff") 16 63 = (255, none) ∧ (0 : Int) < 1 ∧
    verify 1 (ascii "portier") (ascii "+ff.fc2d4677c12ad3aa") = some true := by
  decide

set_option maxRecDepth 100000 in
/-- C5 refuted as stated. The prefix `ffffffffffffffff` consists of hexadecimal digits and is
out of the parser's range: `ParseInt` returns `2^62 - 1` with `ErrRange`. At the positive
clock reading 1700000000 `verify`, which drops the error, finds `2^62 - 1` not before the
clock and returns true for the matching signature. -/
theorem verify_accepts_out_of_range :
    (∀ c ∈ ascii "ffffffffffffffff", isHexDigit c) ∧
    ParseInt (ascii "ffffffffffffffff") 16 63 = (2 ^ 62 - 1, some .ErrRange) ∧
    (0 : Int) < 1700000000 ∧
    verify 1700000000 (ascii "portier") (ascii "ffffffffffffffff.1971de59abd735fa") = some true := by
  decide


/-! ## Auxiliary facts: formatting and parsing over the whole `int64` range -/

theorem formatLoop_digits (u : Nat) (hu : u < 2 ^ 64) :
    ∃ d ds, formatLoop 64 u [] = digits.getD d 0 :: ds ∧ d < 16 ∧
      (∀ c ∈ ds, isLowerHex c) ∧ ds.length + 1 ≤ 16 := by
  have h16 : u < 16 ^ 16 := by
    have : (16 : Nat) ^ 16 = 2 ^ 64 := by norm_num
    omega
  obtain ⟨d, ds, he, hd, _, hall, hlen⟩ :=
    formatLoop_shape 64 16 u [] (by omega) (by omega) h16
  exact ⟨d, ds, by rw [he]; simp, hd, hall, hlen⟩

theorem ParseUint_formatLoop (u : Nat) (hu : u < 2 ^ 63) :
    ParseUint (formatLoop 64 u []) 16 63 = (u, none) := by
  obtain ⟨d, ds, he, _, _, _⟩ := formatLoop_digits u (by omega)
  unfold ParseUint
  rw [if_neg (by rw [he]; simp), formatLoop_parse 64 u [] (by
    have : (16 : Nat) ^ 64 = 2 ^ 256 := by norm_num
    have h2 : (2 : Nat) ^ 63 < 2 ^ 256 := Nat.pow_lt_pow_right (by decide) (by decide)
    omega) hu]
  rfl

theorem AppendInt16_nonneg (e : Int) (h0 : 0 ≤ e) (h : e < 2 ^ 64) :
    AppendInt16 e = formatLoop 64 e.toNat [] := by
  unfold AppendInt16 toUint64
  rw [if_neg (by omega), if_neg (by omega)]
  congr 1
  omega

theorem AppendInt16_neg (e : Int) (h0 : e < 0) (hlo : -2 ^ 63 ≤ e) :
    AppendInt16 e = (45 : Byte) :: formatLoop 64 (-e).toNat [] := by
  unfold AppendInt16 toUint64
  rw [if_pos h0, if_pos h0]
  congr 2
  omega

theorem AppendInt16_bytes (e : Int) (hlo : -2 ^ 63 ≤ e) (hhi : e < 2 ^ 63) :
    AppendInt16 e ≠ [] ∧ (∀ c ∈ AppendInt16 e, isLowerHex c ∨ c = 45) ∧
      (AppendInt16 e).length ≤ 17 := by
  by_cases h0 : e < 0
  · obtain ⟨d, ds, he, hd, hall, hlen⟩ := formatLoop_digits (-e).toNat (by omega)
    rw [AppendInt16_neg e h0 hlo, he]
    refine ⟨by simp, ?_, by simp; omega⟩
    intro c hc
    rcases List.mem_cons.mp hc with hc | hc
    · right; exact hc
    · rcases List.mem_cons.mp hc with hc | hc
      · left; rw [hc]; exact digits_lower d hd
      · left; exact hall c hc
  · obtain ⟨d, ds, he, hd, hall, hlen⟩ := formatLoop_digits e.toNat (by omega)
    rw [AppendInt16_nonneg e (by omega) (by omega), he]
    refine ⟨by simp, ?_, by simp; omega⟩
    intro c hc
    rcases List.mem_cons.mp hc with hc | hc
    · left; rw [hc]; exact digits_lower d hd
    · left; exact hall c hc

theorem AppendInt16_no_dot (e : Int) (hlo : -2 ^ 63 ≤ e) (hhi : e < 2 ^ 63) :
    dot ∉ AppendInt16 e := by
  intro hd
  rcases (AppendInt16_bytes e hlo hhi).2.1 dot hd with h | h
  · exact dot_not_lowerHex h
  · revert h; decide

/-- What `ParseInt` returns for the rendering of an `int64` above `-2^63`: the number itself
within the 63-bit range, the nearest bound outside it. -/
theorem ParseInt_AppendInt16_val (e : Int) (hlo : -2 ^ 63 < e) (hhi : e < 2 ^ 63) :
    (ParseInt (AppendInt16 e) 16 63).1 = max (min e (2 ^ 62 - 1)) (-2 ^ 62) := by
  have hcut : (2 : Nat) ^ (63 - 1) = 2 ^ 62 := by norm_num
  by_cases h0 : e < 0
  · have hU := ParseUint_formatLoop (-e).toNat (by omega)
    rw [AppendInt16_neg e h0 (by omega)]
    unfold ParseInt
    simp only [or_true, if_true, hU, hcut, true_and, not_true_eq_false, false_and, if_false]
    rw [if_neg (by simp)]
    by_cases hc : 2 ^ 62 < (-e).toNat
    · rw [if_pos hc]
      simp only
      omega
    · rw [if_neg hc]
      simp only
      omega
  · obtain ⟨d, ds, he, hd, _, _⟩ := formatLoop_digits e.toNat (by omega)
    have hs := lowerHex_not_sign (digits_lower d hd)
    have hU := ParseUint_formatLoop e.toNat (by omega)
    rw [AppendInt16_nonneg e (by omega) (by omega)]
    rw [he] at hU ⊢
    unfold ParseInt
    simp only [hs.1, hs.2.1, or_self, if_false, hU, hcut, false_and, not_false_eq_true,
      true_and]
    rw [if_neg (by simp)]
    by_cases hc : 2 ^ 62 ≤ e.toNat
    · rw [if_pos hc]
      simp only
      omega
    · rw [if_neg hc]
      simp only
      omega

theorem wrapInt64_range (x : Int) : -2 ^ 63 ≤ wrapInt64 x ∧ wrapInt64 x < 2 ^ 63 := by
  unfold wrapInt64
  omega

theorem wrapInt64_id (x : Int) (hlo : -2 ^ 63 ≤ x) (hhi : x < 2 ^ 63) : wrapInt64 x = x := by
  unfold wrapInt64
  omega

/-- The function `signature` returns a token at every clock reading and for every lifetime:
the 64-byte array is never exceeded. -/
theorem signature_total (now : Int) (secret : GoString) (ttl : Int) :
    signature now secret ttl = some (AppendInt16 (wrapInt64 (now + ttl)) ++
      dot :: hexEncode (truncatedDigest secret (AppendInt16 (wrapInt64 (now + ttl))))) := by
  obtain ⟨hlo, hhi⟩ := wrapInt64_range (now + ttl)
  have hl := (AppendInt16_bytes _ hlo hhi).2.2
  unfold signature
  simp only [slice_mac, Option.bind_eq_bind, Option.some_bind, truncatedDigest_length]
  rw [if_neg (by simp; omega)]
  simp

/-- A token of `signature` is accepted at a clock reading exactly when the number that
`ParseInt` returns for its first part is not before that reading. -/
theorem verify_signature (secret : GoString) (now ttl later : Int) :
    ∃ tok, signature now secret ttl = some tok ∧
      verify later secret tok =
        some (decide (later ≤ (ParseInt (AppendInt16 (wrapInt64 (now + ttl))) 16 63).1)) := by
  obtain ⟨hlo, hhi⟩ := wrapInt64_range (now + ttl)
  refine ⟨_, signature_total now secret ttl, ?_⟩
  rw [verify_split later secret _ _ (AppendInt16_bytes _ hlo hhi).1
    (AppendInt16_no_dot _ hlo hhi)]
  simp

/-- The bytes of a token of `signature`: hexadecimal digits, `'-'` and `'.'`. -/
theorem signature_bytes (now : Int) (secret : GoString) (ttl : Int) (tok : GoString)
    (h : signature now secret ttl = some tok) :
    tok ≠ [] ∧ ∀ c ∈ tok, isLowerHex c ∨ c = 45 ∨ c = dot := by
  obtain ⟨hlo, hhi⟩ := wrapInt64_range (now + ttl)
  rw [signature_total] at h
  have h := (Option.some.inj h).symm
  subst h
  refine ⟨by simp, ?_⟩
  intro c hc
  rcases List.mem_append.mp hc with hc | hc
  · rcases (AppendInt16_bytes _ hlo hhi).2.1 c hc with h | h
    · exact Or.inl h
    · exact Or.inr (Or.inl h)
  · rcases List.mem_cons.mp hc with hc | hc
    · exact Or.inr (Or.inr hc)
    · exact Or.inl (hexEncode_lower _ c hc)

/-- The number `ParseInt` returns together with a range error: the upper bound `2^62 - 1`
for a prefix without minus sign, the lower bound `-2^62` for one with it. -/
theorem ParseInt_range_val (P : GoString) (h : (ParseInt P 16 63).2 = some .ErrRange) :
    P ≠ [] ∧ (P.head? ≠ some 45 → (ParseInt P 16 63).1 = 2 ^ 62 - 1) ∧
      (P.head? = some 45 → (ParseInt P 16 63).1 = -2 ^ 62) := by
  have hcut : (2 : Nat) ^ (63 - 1) = 2 ^ 62 := by norm_num
  cases P with
  | nil => simp [ParseInt] at h
  | cons c rest =>
    refine ⟨by simp, ?_, ?_⟩
    · intro hc
      have hc' : c ≠ 45 := fun hx => hc (by rw [hx]; rfl)
      unfold ParseInt at h ⊢
      simp only [hc', false_and, not_false_eq_true, true_and, if_false, hcut] at h ⊢
      split_ifs at h ⊢ <;>
        first
          | (simp at h; done)
          | (show ((2 ^ 62 : Nat) : Int) - 1 = 2 ^ 62 - 1; norm_num)
    · intro hc
      have hc' : c = 45 := by simpa using hc
      unfold ParseInt at h ⊢
      simp only [hc', not_true_eq_false, false_and, true_and, if_false, hcut] at h ⊢
      split_ifs at h ⊢ <;>
        first
          | (simp at h; done)
          | (show -((2 ^ 62 : Nat) : Int) = -2 ^ 62; norm_num)

/-- C5 as amended (unparsable expiry). At a positive clock reading, for a token whose part
`P` before the first `'.'` the parser rejects: when the rejection is a syntax error, or `P`
starts with `'-'` and is out of range, `verify` returns false whatever follows the `'.'`;
when `P` is out of range without a minus sign, the parser returns `2^62 - 1` with its range
error, and `verify`, which drops the error, returns true exactly when the part after the
`'.'` is the hex encoding of the truncated keyed digest of `P` and the clock is below
`2^62`. -/
theorem verify_unparsable_expiry (now : Int) (hnow : 0 < now) (secret P S : GoString)
    (hd : dot ∉ P) :
    ((ParseInt P 16 63).2 = some .ErrSyntax → verify now secret (P ++ dot :: S) = some false) ∧
    ((ParseInt P 16 63).2 = some .ErrRange → P.head? = some 45 →
      verify now secret (P ++ dot :: S) = some false) ∧
    ((ParseInt P 16 63).2 = some .ErrRange → P.head? ≠ some 45 →
      (ParseInt P 16 63).1 = 2 ^ 62 - 1 ∧
      verify now secret (P ++ dot :: S) =
        some (decide (S = hexEncode (truncatedDigest secret P) ∧ now < 2 ^ 62))) := by
  refine ⟨?_, ?_, ?_⟩
  · intro he
    by_cases hP : P = []
    · subst hP; exact verify_dot_first now secret S
    · rw [verify_split now secret P S hP hd, ParseInt_synErr_val P 16 63 he]
      simp [not_le.mpr hnow]
  · intro he hm
    obtain ⟨hP, _, hv⟩ := ParseInt_range_val P he
    rw [verify_split now secret P S hP hd, hv hm]
    have h1 : decide (now ≤ -2 ^ 62) = false := decide_eq_false (by omega)
    rw [h1, Bool.false_and]
  · intro he hm
    obtain ⟨hP, hv, _⟩ := ParseInt_range_val P he
    refine ⟨hv hm, ?_⟩
    rw [verify_split now secret P S hP hd, hv hm]
    have h1 : decide (now ≤ 2 ^ 62 - 1) = decide (now < 2 ^ 62) :=
      decide_eq_decide.mpr (by omega)
    rw [h1, Bool.and_comm, Bool.decide_and]

set_option maxRecDepth 100000 in
/-- Witness: the prefix `zz` is a syntax error, the prefix `-ffffffffffffffff` is out of
range below, and the prefix `ffffffffffffffff` is out of range above, at second
1700000000 and with the signature of the sample. -/
theorem verify_unparsable_expiry_witness :
    (0 : Int) < 1700000000 ∧ dot ∉ ascii "ffffffffffffffff" ∧
    (ParseInt (ascii "zz") 16 63).2 = some .ErrSyntax ∧
    verify 1700000000 (ascii "portier") (ascii "zz" ++ dot :: ascii "1971de59abd735fa")
      = some false ∧
    (ParseInt (ascii "-ffffffffffffffff") 16 63).2 = some .ErrRange ∧
    verify 1700000000 (ascii "portier")
      (ascii "-ffffffffffffffff" ++ dot :: ascii "1971de59abd735fa") = some false ∧
    (ParseInt (ascii "ffffffffffffffff") 16 63).2 = some .ErrRange ∧
    (ParseInt (ascii "ffffffffffffffff") 16 63).1 = 2 ^ 62 - 1 ∧
    verify 1700000000 (ascii "portier")
      (ascii "ffffffffffffffff" ++ dot :: ascii "1971de59abd735fa") =
      some (decide (ascii "1971de59abd735fa" =
        hexEncode (truncatedDigest (ascii "portier") (ascii "ffffffffffffffff")) ∧
        (1700000000 : Int) < 2 ^ 62)) :=
  have h1 := verify_unparsable_expiry 1700000000 (by decide) (ascii "portier") (ascii "zz")
    (ascii "1971de59abd735fa") (by decide)
  have h2 := verify_unparsable_expiry 1700000000 (by decide) (ascii "portier")
    (ascii "-ffffffffffffffff") (ascii "1971de59abd735fa") (by decide)
  have h3 := verify_unparsable_expiry 1700000000 (by decide) (ascii "portier")
    (ascii "ffffffffffffffff") (ascii "1971de59abd735fa") (by decide)
  ⟨by decide, by decide, by decide, h1.1 (by decide), by decide,
    h2.2.1 (by decide) (by decide), by decide, (h3.2.2 (by decide) (by decide)).1,
    (h3.2.2 (by decide) (by decide)).2⟩
/-! ## The one-time-code store -/

theorem consume_fst (m : Store) (e c : GoString) : (consume m e c).1 = true ↔ m e = some c := by
  unfold consume Store.loadAndDelete
  cases h : m e with
  | none => simp
  | some v => simp [eq_comm]

theorem consume_snd_self (m : Store) (e c : GoString) : (consume m e c).2 e = none := by
  simp [consume, Store.loadAndDelete]

theorem consume_snd_other (m : Store) (e c e' : GoString) (h : e' ≠ e) :
    (consume m e c).2 e' = m e' := by
  simp [consume, Store.loadAndDelete, h]

theorem consume_of_none (m : Store) (e c : GoString) (h : m e = none) :
    (consume m e c).1 = false := by
  simp [consume, Store.loadAndDelete, h]

theorem applyOps_none (e : GoString) (ops : List StoreOp) : ∀ m : Store, m e = none →
    (∀ op ∈ ops, ¬ op.issuesFor e) → applyOps m ops e = none := by
  induction ops with
  | nil => intro m h _; exact h
  | cons op rest ih =>
    intro m h hops
    have h1 := hops op (List.mem_cons_self _ _)
    have h2 : ∀ o ∈ rest, ¬ o.issuesFor e := fun o ho => hops o (List.mem_cons_of_mem _ ho)
    show applyOps (StoreOp.apply m op) rest e = none
    apply ih _ _ h2
    cases op with
    | issued k v =>
      simp only [StoreOp.issuesFor] at h1
      simp [StoreOp.apply, Store.store, Ne.symm h1, h]
    | verified k v =>
      by_cases hk : e = k
      · subst hk; exact consume_snd_self m e v
      · rw [StoreOp.apply, consume_snd_other m k v e hk, h]

theorem verifyTimes_of_none (n : Nat) : ∀ (m : Store) (e c : GoString), m e = none →
    verifyTimes n m e c = List.replicate n false := by
  induction n with
  | zero => intro m e c _; rfl
  | succ k ih =>
    intro m e c h
    rw [verifyTimes, consume_of_none m e c h, ih _ e c (consume_snd_self m e c)]
    rfl

/-- C7 (read-and-remove with equality). The consume step returns true exactly when the store
held a code for the mail address and that code equals the submitted one; afterwards the
store has no entry for the address, whatever the result, and every other entry is as
before. -/
theorem consume_read_and_remove (m : Store) (e c : GoString) :
    ((consume m e c).1 = true ↔ m e = some c) ∧ (consume m e c).2 e = none ∧
      ∀ e' : GoString, e' ≠ e → (consume m e c).2 e' = m e' :=
  ⟨consume_fst m e c, consume_snd_self m e c, fun e' h => consume_snd_other m e c e' h⟩

/-- C8 (single use). After a verification of `(e, c1)`, successful or not, and any further
operations none of which stores a code for `e`, a verification of `(e, c2)` returns false;
and of `N + 1` successive verifications of the code `c` just stored for `e`, the first
returns true and the `N` later ones return false. -/
theorem codes_single_use (m : Store) (e c1 c2 : GoString) (ops : List StoreOp)
    (hops : ∀ op ∈ ops, ¬ op.issuesFor e) :
    (consume (applyOps (consume m e c1).2 ops) e c2).1 = false ∧
      ∀ (c : GoString) (N : Nat),
        verifyTimes (N + 1) (m.store e c) e c = true :: List.replicate N false := by
  refine ⟨consume_of_none _ e c2 (applyOps_none e ops _ (consume_snd_self m e c1) hops), ?_⟩
  intro c N
  rw [verifyTimes, verifyTimes_of_none N _ e c (consume_snd_self _ e c)]
  have : (consume (m.store e c) e c).1 = true := (consume_fst _ e c).mpr (by simp [Store.store])
  rw [this]

/-- Witness: between the two verifications for `u@allowed.com` a code is
stored and verified for another address. -/
theorem codes_single_use_witness :
    (∀ op ∈ [StoreOp.issued (ascii "v@allowed.com") (ascii "2345"),
        StoreOp.verified (ascii "v@allowed.com") (ascii "2345")],
      ¬ op.issuesFor (ascii "u@allowed.com")) ∧
    (consume (applyOps (consume (Store.empty.store (ascii "u@allowed.com") (ascii "1234"))
        (ascii "u@allowed.com") (ascii "1234")).2
        [StoreOp.issued (ascii "v@allowed.com") (ascii "2345"),
          StoreOp.verified (ascii "v@allowed.com") (ascii "2345")])
      (ascii "u@allowed.com") (ascii "1234")).1 = false ∧
      ∀ (c : GoString) (N : Nat),
        verifyTimes (N + 1)
          ((Store.empty.store (ascii "u@allowed.com") (ascii "1234")).store
            (ascii "u@allowed.com") c) (ascii "u@allowed.com") c
          = true :: List.replicate N false :=
  have h : ∀ op ∈ [StoreOp.issued (ascii "v@allowed.com") (ascii "2345"),
        StoreOp.verified (ascii "v@allowed.com") (ascii "2345")],
      ¬ op.issuesFor (ascii "u@allowed.com") := by
    intro op hop
    simp only [List.mem_cons, List.mem_singleton, List.not_mem_nil, or_false] at hop
    rcases hop with rfl | rfl
    · simp only [StoreOp.issuesFor]; decide
    · simp [StoreOp.issuesFor]
  ⟨h, codes_single_use (Store.empty.store (ascii "u@allowed.com") (ascii "1234"))
    (ascii "u@allowed.com") (ascii "1234") (ascii "1234") _ h⟩

/-- C9 as amended (overwrite). When a code is issued for `e` and then a second one before
the first is consumed, verifying the first code returns false if the two codes differ and
true if the generator returned the same code twice. -/
theorem reissue_invalidates_unless_equal (m : Store) (e : GoString) (r1 r2 : Nat) :
    (consume (issue (issue m e r1).2 e r2).2 e (nonce r1)).1 = decide (nonce r1 = nonce r2) := by
  simp [consume, Store.loadAndDelete, issue, Store.store]

set_option maxRecDepth 100000 in
/-- C9 refuted as stated. The generator can return `1000` twice (it does for the draw 0);
after the two issues for `u@allowed.com`, verifying the first code returns true. -/
theorem reissue_same_code_verifies :
    (0 : Nat) < 8999 ∧ nonce 0 = ascii "1000" ∧
    (issue Store.empty (ascii "u@allowed.com") 0).1 = ascii "1000" ∧
    (issue (issue Store.empty (ascii "u@allowed.com") 0).2 (ascii "u@allowed.com") 0).1
      = ascii "1000" ∧
    (consume (issue (issue Store.empty (ascii "u@allowed.com") 0).2 (ascii "u@allowed.com") 0).2
      (ascii "u@allowed.com") (ascii "1000")).1 = true := by
  decide

/-! ## Concurrent verifications -/

theorem countP_eq_zero_of_pending (code : GoString) (l : List Thread)
    (h : ∀ t ∈ l, t = Thread.pending) : l.countP (Thread.wins code) = 0 := by
  rw [List.countP_eq_zero]
  intro t ht
  rw [h t ht]
  simp [Thread.wins]

theorem Conc.step_length (mail code : GoString) (s : Conc) (i : Nat) :
    (Conc.step mail code s i).threads.length = s.threads.length := by
  unfold Conc.step
  split <;> simp

theorem Conc.step_inv (mail code : GoString) (s : Conc) (i : Nat)
    (h : Conc.inv mail code s) : Conc.inv mail code (Conc.step mail code s i) := by
  unfold Conc.step
  split
  · next hget =>
    have hi : i < s.threads.length := (List.get?_eq_some.mp hget).1
    have hti : s.threads[i] = Thread.pending := by
      have := (List.get?_eq_some.mp hget).2
      simpa using this
    rcases h with ⟨hs, hall⟩ | ⟨hs, hcnt⟩
    · right
      refine ⟨by simp [Store.loadAndDelete], ?_⟩
      show (s.threads.set i _).countP (Thread.wins code) = 1
      rw [List.countP_set _ _ _ _ hi, countP_eq_zero_of_pending code _ hall]
      simp [Store.loadAndDelete, hs, Thread.wins]
    · right
      refine ⟨by simp [Store.loadAndDelete], ?_⟩
      show (s.threads.set i _).countP (Thread.wins code) = 1
      rw [List.countP_set _ _ _ _ hi, hcnt, hti]
      simp [Store.loadAndDelete, hs, Thread.wins]
  · next v hget =>
    have hi : i < s.threads.length := (List.get?_eq_some.mp hget).1
    have hti : s.threads[i] = Thread.loaded v := by
      have := (List.get?_eq_some.mp hget).2
      simpa using this
    rcases h with ⟨hs, hall⟩ | ⟨hs, hcnt⟩
    · exfalso
      have := hall _ (List.getElem_mem hi)
      rw [hti] at this
      cases this
    · right
      refine ⟨hs, ?_⟩
      show (s.threads.set i _).countP (Thread.wins code) = 1
      rw [List.countP_set _ _ _ _ hi, hti]
      have hpos : 0 < s.threads.countP (Thread.wins code) := by omega
      cases v with
      | none => simp [Thread.wins, hcnt]
      | some x =>
        by_cases hx : code = x
        · subst hx
          simp [Thread.wins, hcnt]
        · simp [Thread.wins, hx, hcnt]
  · exact h

theorem Conc.run_inv (mail code : GoString) (sched : List Nat) : ∀ s : Conc,
    Conc.inv mail code s → Conc.inv mail code (Conc.run mail code s sched) := by
  induction sched with
  | nil => intro s h; exact h
  | cons i rest ih => intro s h; exact ih _ (Conc.step_inv mail code s i h)

theorem Conc.run_length (mail code : GoString) (sched : List Nat) : ∀ s : Conc,
    (Conc.run mail code s sched).threads.length = s.threads.length := by
  induction sched with
  | nil => intro s; rfl
  | cons i rest ih =>
    intro s
    show (Conc.run mail code (Conc.step mail code s i) rest).threads.length = _
    rw [ih, Conc.step_length]

theorem count_done (code : GoString) (l : List Thread) (h : l.all Thread.isDone = true) :
    l.count (Thread.done true) = l.countP (Thread.wins code) ∧
      l.count (Thread.done true) + l.count (Thread.done false) = l.length := by
  induction l with
  | nil => simp
  | cons t rest ih =>
    simp only [List.all_cons, Bool.and_eq_true] at h
    obtain ⟨h1, h2⟩ := ih h.2
    cases t with
    | pending => simp [Thread.isDone] at h
    | loaded v => simp [Thread.isDone] at h
    | done b =>
      cases b
      · simp [List.count_cons, List.countP_cons, Thread.wins, h1]
        omega
      · simp [List.count_cons, List.countP_cons, Thread.wins, h1]
        omega

/-- C10 (exactly once under concurrency). With the code `c` stored for `e` and `N ≥ 1`
goroutines verifying `(e, c)`, each taking the atomic `LoadAndDelete` step and then its own
comparison step, after every schedule that lets all of them finish exactly one has
returned true and the other `N - 1` have returned false. -/
theorem concurrent_verify_exactly_once (m : Store) (e c : GoString) (N : Nat) (hN : 1 ≤ N)
    (sched : List Nat)
    (hfin : (Conc.run e c (Conc.start (m.store e c) N) sched).finished = true) :
    (Conc.run e c (Conc.start (m.store e c) N) sched).threads.length = N ∧
    (Conc.run e c (Conc.start (m.store e c) N) sched).threads.count (Thread.done true) = 1 ∧
    (Conc.run e c (Conc.start (m.store e c) N) sched).threads.count (Thread.done false)
      = N - 1 := by
  have hlen : (Conc.run e c (Conc.start (m.store e c) N) sched).threads.length = N := by
    rw [Conc.run_length]
    simp [Conc.start]
  have hinv : Conc.inv e c (Conc.run e c (Conc.start (m.store e c) N) sched) := by
    apply Conc.run_inv
    left
    refine ⟨by simp [Conc.start, Store.store], ?_⟩
    intro t ht
    simp only [Conc.start] at ht
    exact List.eq_of_mem_replicate ht
  obtain ⟨h1, h2⟩ := count_done c _ hfin
  have hone : (Conc.run e c (Conc.start (m.store e c) N) sched).threads.countP (Thread.wins c)
      = 1 := by
    rcases hinv with ⟨_, hall⟩ | ⟨_, hcnt⟩
    · exfalso
      have hz := countP_eq_zero_of_pending c _ hall
      have hne : (Conc.run e c (Conc.start (m.store e c) N) sched).threads ≠ [] := by
        intro hnil
        rw [hnil] at hlen
        simp at hlen
        omega
      obtain ⟨t, ht⟩ := List.exists_mem_of_ne_nil _ hne
      have hp := hall t ht
      have hd := List.all_eq_true.mp hfin t ht
      rw [hp] at hd
      simp [Thread.isDone] at hd
    · exact hcnt
  refine ⟨hlen, by rw [h1, hone], ?_⟩
  rw [h1, hone, hlen] at h2
  omega

set_option maxRecDepth 100000 in
/-- Witness: two goroutines, the second loading first. -/
theorem concurrent_verify_exactly_once_witness :
    1 ≤ 2 ∧
    (Conc.run (ascii "u@allowed.com") (ascii "1234")
      (Conc.start (Store.empty.store (ascii "u@allowed.com") (ascii "1234")) 2)
      [1, 0, 0, 1]).finished = true ∧
    (Conc.run (ascii "u@allowed.com") (ascii "1234")
      (Conc.start (Store.empty.store (ascii "u@allowed.com") (ascii "1234")) 2)
      [1, 0, 0, 1]).threads.length = 2 ∧
    (Conc.run (ascii "u@allowed.com") (ascii "1234")
      (Conc.start (Store.empty.store (ascii "u@allowed.com") (ascii "1234")) 2)
      [1, 0, 0, 1]).threads.count (Thread.done true) = 1 ∧
    (Conc.run (ascii "u@allowed.com") (ascii "1234")
      (Conc.start (Store.empty.store (ascii "u@allowed.com") (ascii "1234")) 2)
      [1, 0, 0, 1]).threads.count (Thread.done false) = 2 - 1 :=
  ⟨by decide, by decide,
    concurrent_verify_exactly_once Store.empty (ascii "u@allowed.com") (ascii "1234") 2
      (by decide) [1, 0, 0, 1] (by decide)⟩

/-! ## The allow-list predicate -/

theorem reClass_matches (ranges : List (Nat × Nat)) (x : GoString) :
    x ∈ (reClass ranges).matches' ↔ ∃ b, x = [b] ∧ inClass ranges b = true := by
  have key : ∀ L : List Byte,
      x ∈ (L.foldr (fun b r => RegularExpression.char b + r) 0).matches' ↔ ∃ b ∈ L, x = [b] := by
    intro L
    induction L with
    | nil => simp [RegularExpression.matches'_zero, Language.not_mem_zero]
    | cons a rest ih =>
      simp only [List.foldr_cons, RegularExpression.matches'_add, Language.mem_add, ih,
        RegularExpression.matches'_char, List.mem_cons, exists_eq_or_imp]
      rfl
  unfold reClass
  rw [key]
  constructor
  · rintro ⟨b, hb, rfl⟩
    exact ⟨b, rfl, (List.mem_filter.mp hb).2⟩
  · rintro ⟨b, rfl, hb⟩
    exact ⟨b, List.mem_filter.mpr ⟨List.mem_finRange b, hb⟩, rfl⟩

theorem reClass_star_matches (ranges : List (Nat × Nat)) (x : GoString) :
    x ∈ (reClass ranges).star.matches' ↔ ∀ b ∈ x, inClass ranges b = true := by
  rw [RegularExpression.matches'_star, Language.mem_kstar]
  constructor
  · rintro ⟨L, rfl, hL⟩ b hb
    obtain ⟨y, hy, hby⟩ := List.mem_flatten.mp hb
    obtain ⟨c, rfl, hc⟩ := (reClass_matches ranges y).mp (hL y hy)
    rw [List.mem_singleton.mp hby]
    exact hc
  · intro h
    refine ⟨x.map (fun b => [b]), ?_, ?_⟩
    · clear h
      induction x with
      | nil => rfl
      | cons a rest ih => simp [← ih]
    · intro y hy
      obtain ⟨b, hb, rfl⟩ := List.mem_map.mp hy
      exact (reClass_matches ranges [b]).mpr ⟨b, rfl, h b hb⟩

theorem rePlus_class_matches (ranges : List (Nat × Nat)) (x : GoString) :
    x ∈ (rePlus (reClass ranges)).matches' ↔ x ≠ [] ∧ ∀ b ∈ x, inClass ranges b = true := by
  unfold rePlus
  rw [RegularExpression.matches'_mul, Language.mem_mul]
  constructor
  · rintro ⟨a, ha, t, ht, rfl⟩
    obtain ⟨c, rfl, hc⟩ := (reClass_matches ranges a).mp ha
    refine ⟨by simp, ?_⟩
    intro b hb
    rcases List.mem_append.mp hb with hb | hb
    · rw [List.mem_singleton.mp hb]; exact hc
    · exact (reClass_star_matches ranges t).mp ht b hb
  · rintro ⟨hne, h⟩
    cases x with
    | nil => exact absurd rfl hne
    | cons c t =>
      exact ⟨[c], (reClass_matches ranges [c]).mpr ⟨c, rfl, h c (List.mem_cons_self _ _)⟩, t,
        (reClass_star_matches ranges t).mpr (fun b hb => h b (List.mem_cons_of_mem _ hb)), rfl⟩

theorem reUpTo_class_matches (ranges : List (Nat × Nat)) (n : Nat) : ∀ x : GoString,
    x ∈ (reUpTo n (reClass ranges)).matches' ↔
      x.length ≤ n ∧ ∀ b ∈ x, inClass ranges b = true := by
  induction n with
  | zero =>
    intro x
    simp only [reUpTo, RegularExpression.matches'_epsilon, Language.mem_one]
    constructor
    · rintro rfl; simp
    · rintro ⟨h, _⟩; exact List.length_eq_zero.mp (by omega)
  | succ k ih =>
    intro x
    simp only [reUpTo, reOpt, RegularExpression.matches'_add, RegularExpression.matches'_epsilon,
      RegularExpression.matches'_mul, Language.mem_add, Language.mem_one, Language.mem_mul]
    constructor
    · rintro (rfl | ⟨a, ha, t, ht, rfl⟩)
      · simp
      · obtain ⟨c, rfl, hc⟩ := (reClass_matches ranges a).mp ha
        obtain ⟨hl, hall⟩ := (ih t).mp ht
        refine ⟨by simp; omega, ?_⟩
        intro b hb
        rcases List.mem_append.mp hb with hb | hb
        · rw [List.mem_singleton.mp hb]; exact hc
        · exact hall b hb
    · rintro ⟨hl, hall⟩
      cases x with
      | nil => left; rfl
      | cons c t =>
        right
        refine ⟨[c], (reClass_matches ranges [c]).mpr ⟨c, rfl, hall c (List.mem_cons_self _ _)⟩,
          t, (ih t).mpr ⟨by simp at hl; omega, fun b hb => hall b (List.mem_cons_of_mem _ hb)⟩,
          rfl⟩

set_option maxRecDepth 100000 in
theorem inClass_alnum : ∀ b : Byte, inClass alnumClass b = true ↔ isAlnum b := by decide

set_option maxRecDepth 100000 in
theorem inClass_alnumHyphen : ∀ b : Byte,
    inClass alnumHyphenClass b = true ↔ (isAlnum b ∨ b = hyphen) := by decide

set_option maxRecDepth 100000 in
theorem inClass_local : ∀ b : Byte, inClass localClass b = true ↔ isLocalChar b := by decide

theorem hyphen_not_alnum : ¬ isAlnum hyphen := by decide

theorem reLabel_matches (x : GoString) : x ∈ reLabel.matches' ↔ SpecLabel x := by
  unfold reLabel reOpt SpecLabel
  simp only [RegularExpression.matches'_mul, RegularExpression.matches'_add,
    RegularExpression.matches'_epsilon, Language.mem_mul, Language.mem_add, Language.mem_one]
  constructor
  · rintro ⟨a, ha, t, ht, rfl⟩
    obtain ⟨c, rfl, hc⟩ := (reClass_matches alnumClass a).mp ha
    have hca : isAlnum c := (inClass_alnum c).mp hc
    have hch : c ≠ hyphen := fun h => hyphen_not_alnum (h ▸ hca)
    rcases ht with rfl | ⟨mid, hmid, z, hz, rfl⟩
    · refine ⟨by simp, by simp, ?_, ?_, ?_⟩
      · intro b hb
        simp only [List.append_nil, List.mem_singleton] at hb
        rw [hb]; exact Or.inl hca
      · simpa using hch
      · simpa using hch
    · obtain ⟨hl, hall⟩ := (reUpTo_class_matches alnumHyphenClass 61 mid).mp hmid
      obtain ⟨d, rfl, hd⟩ := (reClass_matches alnumClass z).mp hz
      have hda : isAlnum d := (inClass_alnum d).mp hd
      have hdh : d ≠ hyphen := fun h => hyphen_not_alnum (h ▸ hda)
      refine ⟨by simp, by simp; omega, ?_, by simpa using hch, ?_⟩
      · intro b hb
        simp only [List.singleton_append, List.mem_cons, List.mem_append,
          List.mem_singleton, List.not_mem_nil, or_false] at hb
        rcases hb with rfl | hb | rfl
        · exact Or.inl hca
        · exact (inClass_alnumHyphen b).mp (hall b hb)
        · exact Or.inl hda
      · rw [← List.append_assoc, List.getLast?_append]
        simpa using hdh
  · rintro ⟨h1, h63, hall, hhead, hlast⟩
    cases x with
    | nil => simp at h1
    | cons c t =>
      have hc : isAlnum c := by
        rcases hall c (List.mem_cons_self _ _) with h | h
        · exact h
        · exact absurd (by rw [h]; rfl) hhead
      refine ⟨[c], (reClass_matches alnumClass [c]).mpr ⟨c, rfl, (inClass_alnum c).mpr hc⟩, t,
        ?_, rfl⟩
      by_cases ht : t = []
      · left; exact ht
      · right
        have hz : isAlnum (t.getLast ht) := by
          rcases hall (t.getLast ht) (List.mem_cons_of_mem _ (List.getLast_mem ht)) with h | h
          · exact h
          · exfalso
            apply hlast
            rw [List.getLast?_eq_getLast _ (List.cons_ne_nil _ _), List.getLast_cons ht, h]
        refine ⟨t.dropLast, ?_, [t.getLast ht], ?_, List.dropLast_append_getLast ht⟩
        · rw [reUpTo_class_matches]
          refine ⟨by simp at h63 ⊢; omega, ?_⟩
          intro b hb
          exact (inClass_alnumHyphen b).mpr
            (hall b (List.mem_cons_of_mem _ (List.dropLast_subset t hb)))
        · exact (reClass_matches alnumClass _).mpr ⟨_, rfl, (inClass_alnum _).mpr hz⟩

theorem joinDots_cons (ls : List GoString) : ∀ first : GoString,
    joinDots (first :: ls) = first ++ (ls.map (fun l => dot :: l)).flatten := by
  induction ls with
  | nil => intro first; simp [joinDots]
  | cons l rest ih =>
    intro first
    have h : joinDots (first :: l :: rest) = first ++ dot :: joinDots (l :: rest) := rfl
    rw [h, ih l]
    simp

theorem mem_joinDots (b : Byte) : ∀ labels : List GoString, b ∈ joinDots labels →
    b = dot ∨ ∃ l ∈ labels, b ∈ l := by
  intro labels
  induction labels with
  | nil => intro h; simp [joinDots] at h
  | cons l rest ih =>
    intro h
    cases rest with
    | nil =>
      simp only [joinDots] at h
      exact Or.inr ⟨l, List.mem_cons_self _ _, h⟩
    | cons l2 rest2 =>
      have he : joinDots (l :: l2 :: rest2) = l ++ dot :: joinDots (l2 :: rest2) := rfl
      rw [he] at h
      rcases List.mem_append.mp h with h | h
      · exact Or.inr ⟨l, List.mem_cons_self _ _, h⟩
      · rcases List.mem_cons.mp h with h | h
        · exact Or.inl h
        · rcases ih h with h | ⟨l', hl', hb⟩
          · exact Or.inl h
          · exact Or.inr ⟨l', List.mem_cons_of_mem _ hl', hb⟩

theorem dotted_labels (L : List GoString)
    (h : ∀ y ∈ L, y ∈ (RegularExpression.char dot * reLabel).matches') :
    ∃ ls : List GoString, L = ls.map (fun l => dot :: l) ∧ ∀ l ∈ ls, SpecLabel l := by
  induction L with
  | nil => exact ⟨[], rfl, by simp⟩
  | cons y rest ih =>
    obtain ⟨ls, hls, hall⟩ := ih (fun z hz => h z (List.mem_cons_of_mem _ hz))
    have hy := h y (List.mem_cons_self _ _)
    rw [RegularExpression.matches'_mul, Language.mem_mul] at hy
    obtain ⟨a, ha, l, hl, rfl⟩ := hy
    rw [RegularExpression.matches'_char] at ha
    have ha' : a = [dot] := ha
    subst ha'
    refine ⟨l :: ls, by simp [hls], ?_⟩
    intro l' hl'
    rcases List.mem_cons.mp hl' with rfl | hl'
    · exact (reLabel_matches _).mp hl
    · exact hall l' hl'

theorem domain_matches (x : GoString) :
    x ∈ (reLabel * (RegularExpression.char dot * reLabel).star).matches' ↔
      ∃ labels : List GoString, labels ≠ [] ∧ x = joinDots labels ∧
        ∀ l ∈ labels, SpecLabel l := by
  rw [RegularExpression.matches'_mul, Language.mem_mul]
  constructor
  · rintro ⟨first, hfirst, t, ht, rfl⟩
    rw [RegularExpression.matches'_star, Language.mem_kstar] at ht
    obtain ⟨L, rfl, hL⟩ := ht
    obtain ⟨ls, rfl, hls⟩ := dotted_labels L hL
    refine ⟨first :: ls, by simp, (joinDots_cons ls first).symm, ?_⟩
    intro l hl
    rcases List.mem_cons.mp hl with rfl | hl
    · exact (reLabel_matches _).mp hfirst
    · exact hls l hl
  · rintro ⟨labels, hne, rfl, hall⟩
    cases labels with
    | nil => exact absurd rfl hne
    | cons first ls =>
      refine ⟨first, (reLabel_matches _).mpr (hall first (List.mem_cons_self _ _)),
        (ls.map (fun l => dot :: l)).flatten, ?_, (joinDots_cons ls first).symm⟩
      rw [RegularExpression.matches'_star, Language.mem_kstar]
      refine ⟨ls.map (fun l => dot :: l), rfl, ?_⟩
      intro y hy
      obtain ⟨l, hl, rfl⟩ := List.mem_map.mp hy
      rw [RegularExpression.matches'_mul, Language.mem_mul]
      exact ⟨[dot], by rw [RegularExpression.matches'_char]; rfl, l,
        (reLabel_matches _).mpr (hall l (List.mem_cons_of_mem _ hl)), rfl⟩

theorem atSign_not_local : ¬ isLocalChar atSign := by decide

theorem atSign_not_label : ¬ (isAlnum atSign ∨ atSign = hyphen) := by decide

theorem atSign_not_mem_joinDots (labels : List GoString) (h : ∀ l ∈ labels, SpecLabel l) :
    atSign ∉ joinDots labels := by
  intro hm
  rcases mem_joinDots atSign labels hm with hd | ⟨l, hl, hb⟩
  · revert hd; decide
  · exact atSign_not_label ((h l hl).2.2.1 atSign hb)

theorem MatchString_emailRe (v : GoString) : MatchString emailRe v = true ↔ SpecEmail v := by
  unfold MatchString
  rw [RegularExpression.rmatch_iff_matches']
  unfold emailRe SpecEmail
  rw [RegularExpression.matches'_mul, Language.mem_mul]
  constructor
  · rintro ⟨loc, hloc, t, ht, rfl⟩
    rw [RegularExpression.matches'_mul, Language.mem_mul] at ht
    obtain ⟨a, ha, dom, hdom, rfl⟩ := ht
    rw [RegularExpression.matches'_char] at ha
    have ha' : a = [atSign] := ha
    subst ha'
    obtain ⟨hne, hall⟩ := (rePlus_class_matches localClass loc).mp hloc
    obtain ⟨labels, hlne, rfl, hlab⟩ := (domain_matches dom).mp hdom
    have hl : ∀ b ∈ loc, isLocalChar b := fun b hb => (inClass_local b).mp (hall b hb)
    refine ⟨loc, labels, by simp, hne, hl, hlne, hlab, ?_⟩
    have h1 : atSign ∉ loc := fun hm => atSign_not_local (hl atSign hm)
    have h2 := atSign_not_mem_joinDots labels hlab
    simp [List.count_append, List.count_eq_zero_of_not_mem h1,
      List.count_eq_zero_of_not_mem h2]
  · rintro ⟨loc, labels, rfl, hne, hl, hlne, hlab, _⟩
    refine ⟨loc, (rePlus_class_matches localClass loc).mpr
      ⟨hne, fun b hb => (inClass_local b).mpr (hl b hb)⟩, atSign :: joinDots labels, ?_, rfl⟩
    rw [RegularExpression.matches'_mul, Language.mem_mul]
    exact ⟨[atSign], by rw [RegularExpression.matches'_char]; rfl, joinDots labels,
      (domain_matches _).mpr ⟨labels, hlne, rfl, hlab⟩, rfl⟩

theorem HasSuffix_iff (s suffix : GoString) : HasSuffix s suffix = true ↔ suffix <:+ s := by
  unfold HasSuffix
  rw [Bool.and_eq_true, decide_eq_true_iff, decide_eq_true_iff]
  constructor
  · rintro ⟨_, h⟩
    exact List.suffix_iff_eq_drop.mpr h.symm
  · intro h
    exact ⟨h.length_le, (List.suffix_iff_eq_drop.mp h).symm⟩

theorem matchMail_iff (str val : GoString) :
    matchMail str val = true ↔ SpecEmail val ∧ str <:+ val := by
  unfold matchMail
  rw [Bool.and_eq_true, MatchString_emailRe, HasSuffix_iff]

theorem matchMail_false_of_not_suffix (str val : GoString) (h : HasSuffix val str = false) :
    matchMail str val = false := by
  unfold matchMail
  rw [h, Bool.and_false]

theorem afterAt_append (loc dom : GoString) (h : atSign ∉ loc) :
    afterAt (loc ++ atSign :: dom) = dom := by
  induction loc with
  | nil => simp [afterAt]
  | cons b rest ih =>
    simp only [List.mem_cons, not_or] at h
    simp [afterAt, Ne.symm h.1, ih h.2]

theorem matchMail_split (str val : GoString) (h : matchMail str val = true) :
    ∃ loc dom, val = loc ++ atSign :: dom ∧ atSign ∉ loc ∧ atSign ∉ dom ∧ str <:+ val := by
  obtain ⟨⟨loc, labels, rfl, _, hl, _, hlab, _⟩, hs⟩ := (matchMail_iff str val).mp h
  exact ⟨loc, joinDots labels, rfl, fun hm => atSign_not_local (hl atSign hm),
    atSign_not_mem_joinDots labels hlab, hs⟩

set_option maxRecDepth 100000 in
/-- C11 (allow-list predicate). `match(S)(v)` is true exactly when `v` is in the email
grammar (a non-empty local part of allowed characters, exactly one `'@'`, then
dot-separated labels of 1 to 63 letters, digits or hyphens that neither start nor end with
a hyphen) and `v` ends with `S`; `user@sub.example.com` is accepted for `example.com`,
`not-an-email` is rejected for every suffix, `user@example.org` is rejected for
`example.com`. -/
theorem allow_list_predicate :
    (∀ S v : GoString, matchMail S v = true ↔ (SpecEmail v ∧ S <:+ v)) ∧
    matchMail (ascii "example.com") (ascii "user@sub.example.com") = true ∧
    (∀ S : GoString, matchMail S (ascii "not-an-email") = false) ∧
    matchMail (ascii "example.com") (ascii "user@example.org") = false := by
  refine ⟨matchMail_iff, ?_, ?_, ?_⟩
  · refine (matchMail_iff _ _).mpr ⟨⟨ascii "user", [ascii "sub", ascii "example", ascii "com"],
      by decide, by decide, by decide, by decide, by decide, by decide⟩, ?_⟩
    exact (HasSuffix_iff _ _).mp (by decide)
  · intro S
    cases h : matchMail S (ascii "not-an-email") with
    | false => rfl
    | true =>
      exfalso
      obtain ⟨⟨_, _, _, _, _, _, _, hc⟩, _⟩ := (matchMail_iff _ _).mp h
      revert hc
      decide
  · exact matchMail_false_of_not_suffix _ _ (by decide)

set_option maxRecDepth 100000 in
/-- C19 refuted as stated. With the required suffix `example.com` the address
`user@notexample.com` is accepted; the part after its `'@'` is `notexample.com`, which is
neither `example.com` nor a name that ends with `.example.com`. -/
theorem suffix_accepts_other_domain :
    matchMail (ascii "example.com") (ascii "user@notexample.com") = true ∧
    afterAt (ascii "user@notexample.com") = ascii "notexample.com" ∧
    afterAt (ascii "user@notexample.com") ≠ ascii "example.com" ∧
    HasSuffix (afterAt (ascii "user@notexample.com")) (dot :: ascii "example.com") = false := by
  refine ⟨?_, by decide, by decide, by decide⟩
  refine (matchMail_iff _ _).mpr ⟨⟨ascii "user", [ascii "notexample", ascii "com"],
    by decide, by decide, by decide, by decide, by decide, by decide⟩, ?_⟩
  exact (HasSuffix_iff _ _).mp (by decide)

/-- C19 as amended (required suffix). Every accepted address ends with the required suffix
`S` as a text. When `S` contains no `'@'`, the part of the address after `'@'` ends with
`S`, at any position and not only at a label boundary; when `S` is `'@'` followed by `D`,
the part after `'@'` is `D` itself. -/
theorem required_suffix_of_accepted (S v : GoString) (h : matchMail S v = true) :
    S <:+ v ∧ (atSign ∉ S → S <:+ afterAt v) ∧
      (∀ D : GoString, S = atSign :: D → afterAt v = D) := by
  obtain ⟨loc, dom, rfl, hloc, hdom, hs⟩ := matchMail_split S v h
  rw [afterAt_append loc dom hloc]
  refine ⟨hs, ?_, ?_⟩
  · intro hS
    obtain ⟨t, ht⟩ := hs
    rcases List.append_eq_append_iff.mp ht with ⟨a, _, ha⟩ | ⟨c, _, hc⟩
    · exfalso
      apply hS
      rw [ha]
      simp
    · cases c with
      | nil =>
        exfalso
        apply hS
        rw [List.nil_append] at hc
        rw [← hc]
        exact List.mem_cons_self _ _
      | cons x c =>
        rw [List.cons_append] at hc
        exact ⟨c, (List.cons.inj hc).2.symm⟩
  · rintro D rfl
    obtain ⟨t, ht⟩ := hs
    rcases List.append_eq_append_iff.mp ht with ⟨a, hl, ha⟩ | ⟨c, _, hc⟩
    · cases a with
      | nil =>
        rw [List.nil_append] at ha
        exact ((List.cons.inj ha).2).symm
      | cons x a =>
        exfalso
        rw [List.cons_append] at ha
        have hx := (List.cons.inj ha).1
        apply hloc
        rw [hl, ← hx]
        simp
    · cases c with
      | nil =>
        rw [List.nil_append] at hc
        exact (List.cons.inj hc).2
      | cons x c =>
        exfalso
        rw [List.cons_append] at hc
        apply hdom
        rw [(List.cons.inj hc).2]
        simp

set_option maxRecDepth 100000 in
/-- Witness: the suffix `@example.com` and the address `user@example.com`. -/
theorem required_suffix_of_accepted_witness :
    matchMail (ascii "@example.com") (ascii "user@example.com") = true ∧
    ascii "@example.com" <:+ ascii "user@example.com" ∧
    (atSign ∉ ascii "@example.com" → ascii "@example.com" <:+ afterAt (ascii "user@example.com")) ∧
    (∀ D : GoString, ascii "@example.com" = atSign :: D →
      afterAt (ascii "user@example.com") = D) :=
  have h : matchMail (ascii "@example.com") (ascii "user@example.com") = true :=
    (matchMail_iff _ _).mpr ⟨⟨ascii "user", [ascii "example", ascii "com"],
      by decide, by decide, by decide, by decide, by decide, by decide⟩,
      (HasSuffix_iff _ _).mp (by decide)⟩
  ⟨h, required_suffix_of_accepted (ascii "@example.com") (ascii "user@example.com") h⟩
/-! ## The one-time code generator -/

set_option maxRecDepth 100000 in
theorem smallsString_digits : ∀ k < 100,
    smallsString.getD (k * 2) 0 = Fin.ofNat (48 + k / 10) ∧
    smallsString.getD (k * 2 + 1) 0 = Fin.ofNat (48 + k % 10) := by decide

theorem nonce_eq (r : Nat) (h : r < 8999) :
    nonce r = [Fin.ofNat (48 + (r + 1000) / 1000), Fin.ofNat (48 + (r + 1000) / 100 % 10),
      Fin.ofNat (48 + (r + 1000) / 10 % 10), Fin.ofNat (48 + (r + 1000) % 10)] := by
  have hw : wrapInt64 ((r : Int) + 1000) = ((r + 1000 : Nat) : Int) := by
    unfold wrapInt64
    push_cast
    omega
  have hu : toUint64 ((r + 1000 : Nat) : Int) = r + 1000 := by
    unfold toUint64
    omega
  unfold nonce FormatInt10
  rw [hw, if_neg (by omega), if_neg (by omega), if_neg (by omega), hu]
  show formatLoop10 32 (r + 1000) [] = _
  rw [formatLoop10, if_pos (by omega), formatLoop10, if_neg (by omega), if_pos (by omega)]
  have h1 := smallsString_digits ((r + 1000) / 100) (by omega)
  have h2 := smallsString_digits ((r + 1000) % 100) (by omega)
  rw [h1.1, h1.2, h2.1, h2.2]
  have e1 : (r + 1000) / 100 / 10 = (r + 1000) / 1000 := by omega
  have e2 : (r + 1000) % 100 / 10 = (r + 1000) / 10 % 10 := by omega
  have e3 : (r + 1000) % 100 % 10 = (r + 1000) % 10 := by omega
  rw [e1, e2, e3]

/-- C17 (shape of a one-time code). For a draw `r < 8999`, `nonce` returns the four decimal
digits of `r + 1000`, most significant first, the first digit not `0`; the number lies in
1000..9998. -/
theorem nonce_four_digits (r : Nat) (h : r < 8999) :
    ∃ d3 d2 d1 d0 : Nat,
      nonce r = [Fin.ofNat (48 + d3), Fin.ofNat (48 + d2), Fin.ofNat (48 + d1),
        Fin.ofNat (48 + d0)] ∧
      1 ≤ d3 ∧ d3 ≤ 9 ∧ d2 ≤ 9 ∧ d1 ≤ 9 ∧ d0 ≤ 9 ∧
      d3 * 1000 + d2 * 100 + d1 * 10 + d0 = r + 1000 ∧
      (nonce r).length = 4 ∧ (nonce r).head? ≠ some 48 ∧
      1000 ≤ r + 1000 ∧ r + 1000 ≤ 9998 := by
  refine ⟨(r + 1000) / 1000, (r + 1000) / 100 % 10, (r + 1000) / 10 % 10, (r + 1000) % 10,
    nonce_eq r h, by omega, by omega, by omega, by omega, by omega, by omega, ?_, ?_,
    by omega, by omega⟩
  · rw [nonce_eq r h]; rfl
  · rw [nonce_eq r h]
    have hne : ∀ k : Nat, 1 ≤ k → k ≤ 9 → (Fin.ofNat (48 + k) : Byte) ≠ 48 := by
      intro k h1 h9
      interval_cases k <;> decide
    simp only [List.head?_cons, ne_eq, Option.some.injEq]
    exact hne _ (by omega) (by omega)

/-- Witness: the draw 234 gives the code 1234. -/
theorem nonce_four_digits_witness :
    234 < 8999 ∧ ∃ d3 d2 d1 d0 : Nat,
      nonce 234 = [Fin.ofNat (48 + d3), Fin.ofNat (48 + d2), Fin.ofNat (48 + d1),
        Fin.ofNat (48 + d0)] ∧
      1 ≤ d3 ∧ d3 ≤ 9 ∧ d2 ≤ 9 ∧ d1 ≤ 9 ∧ d0 ≤ 9 ∧
      d3 * 1000 + d2 * 100 + d1 * 10 + d0 = 234 + 1000 ∧
      (nonce 234).length = 4 ∧ (nonce 234).head? ≠ some 48 ∧
      1000 ≤ 234 + 1000 ∧ 234 + 1000 ≤ 9998 :=
  ⟨by decide, nonce_four_digits 234 (by decide)⟩
/-! ## The request handler -/

theorem dropWhile_length_le (p : Byte → Bool) (l : GoString) :
    (l.dropWhile p).length ≤ l.length := by
  induction l with
  | nil => simp
  | cons a t ih =>
    simp only [List.dropWhile_cons]
    split_ifs
    · simp only [List.length_cons]; omega
    · simp

/-- The bound on the rounds of `cleanLoop` is never reached: with at least as many rounds as
unread bytes, one more round changes nothing. -/
theorem cleanLoop_fuel (rooted : Bool) : ∀ (fuel : Nat) (rest out : GoString) (dotdot : Nat),
    rest.length ≤ fuel →
    cleanLoop rooted (fuel + 1) rest out dotdot = cleanLoop rooted fuel rest out dotdot := by
  intro fuel
  induction fuel with
  | zero =>
    intro rest out dd h
    have : rest = [] := by simpa using h
    subst this
    rfl
  | succ k ih =>
    intro rest out dd h
    cases rest with
    | nil => rfl
    | cons c tl =>
      have htl : tl.length ≤ k := by simpa using h
      have htt : tl.tail.length ≤ k := by
        have := List.length_tail tl
        omega
      have hdw : ((c :: tl).dropWhile (fun b => decide (b ≠ slash))).length ≤ k + 1 :=
        le_trans (dropWhile_length_le _ _) h
      conv_lhs => rw [cleanLoop]
      conv_rhs => rw [cleanLoop]
      by_cases h1 : c = slash
      · rw [if_pos h1, if_pos h1]
        exact ih _ _ _ htl
      · rw [if_neg h1, if_neg h1]
        have hdw2 : ((c :: tl).dropWhile (fun b => decide (b ≠ slash))).length ≤ k := by
          rw [List.dropWhile_cons, if_pos (by simpa using h1)]
          exact le_trans (dropWhile_length_le _ _) htl
        split_ifs
        all_goals first
          | exact ih _ _ _ htl
          | exact ih _ _ _ htt
          | exact ih _ _ _ hdw2

/-- The function `pathClean` is the loop of `path.Clean` run to its end. -/
theorem pathClean_fuel (p : GoString) (extra : Nat) (hp : p ≠ []) :
    pathClean p =
      (let out :=
        if p.head? = some slash then cleanLoop true (p.length + extra) p.tail [slash] 1
        else cleanLoop false (p.length + extra) p [] 0
      if out = [] then [dot] else out) := by
  have h1 : ∀ (rooted : Bool) (rest out : GoString) (dd : Nat), rest.length ≤ p.length →
      cleanLoop rooted (p.length + extra) rest out dd = cleanLoop rooted p.length rest out dd := by
    intro rooted rest out dd hl
    induction extra with
    | zero => rfl
    | succ e ih =>
      rw [← Nat.add_assoc, cleanLoop_fuel rooted _ rest out dd (by omega), ih]
  unfold pathClean
  rw [if_neg hp, h1 true p.tail [slash] 1 (by rw [List.length_tail]; omega),
    h1 false p [] 0 (le_refl _)]

theorem check_defined (cfg : Config) (now : Int) (req : Request) :
    check cfg now req = some true ∨ check cfg now req = some false := by
  unfold check
  cases req.cookie with
  | none => right; rfl
  | some v =>
    obtain ⟨b, hb⟩ := verify_defined now cfg.secret v
    cases b
    · right; exact hb
    · left; exact hb

theorem check_of_no_session (cfg : Config) (now : Int) (req : Request)
    (h : req.cookie = none ∨ ∃ v, req.cookie = some v ∧ verify now cfg.secret v = some false) :
    check cfg now req = some false := by
  unfold check
  rcases h with h | ⟨v, h, hv⟩
  · rw [h]
  · rw [h]; exact hv

theorem handle_session (cfg : Config) (env : Env) (m : Store) (req : Request)
    (h : check cfg env.now req = some true) :
    handle cfg env m req = some ⟨redirectIfAny env req Response.blank, m, [], []⟩ := by
  simp [handle, h]

theorem handle_off_login (cfg : Config) (env : Env) (m : Store) (req : Request)
    (h : check cfg env.now req = some false) (hp : cfg.uri ≠ req.path) :
    handle cfg env m req = some ⟨⟨401, none, none, none⟩, m, [], []⟩ := by
  simp [handle, h, hp]

theorem handle_login (cfg : Config) (env : Env) (m : Store) (req : Request)
    (h : check cfg env.now req = some false) (hp : cfg.uri = req.path) :
    handle cfg env m req = (login cfg env m req).bind (fun r =>
      if r.1 = true then some { r.2 with resp := redirectIfAny env req r.2.resp }
      else some r.2) := by
  simp [handle, h, hp]

theorem login_get (cfg : Config) (env : Env) (m : Store) (req : Request)
    (hg : req.method = MethodGet) :
    login cfg env m req = some (false,
      ⟨render ⟨req.mail, env.hostname req.redirect, env.now, none, none, false, none, none⟩,
        m, [], []⟩) := by
  simp [login, hg]

theorem login_reject (cfg : Config) (env : Env) (m : Store) (req : Request)
    (hg : req.method ≠ MethodGet) (hv : matchMail cfg.suffix req.mail = false) :
    login cfg env m req = some (false,
      ⟨render ⟨req.mail, env.hostname req.redirect, env.now,
        some (cfg.dict (ascii "mail.reject")), none, false, none, none⟩, m, [], []⟩) := by
  simp [login, hg, hv]

theorem login_issue (cfg : Config) (env : Env) (m : Store) (req : Request)
    (hg : req.method ≠ MethodGet) (hv : matchMail cfg.suffix req.mail = true)
    (hc : req.code = []) :
    login cfg env m req = some (false,
      ⟨render ⟨req.mail, env.hostname req.redirect, env.now,
        some (cfg.dict (ascii "captcha.sent")), some (nonce env.draw), true, some req.mail,
        some cfg.mailUser⟩,
        m.store req.mail (nonce env.draw),
        [(req.mail, ⟨req.mail, env.hostname req.redirect, env.now,
          some (cfg.dict (ascii "captcha.sent")), some (nonce env.draw), true, none, none⟩)],
        [⟨req.mail, nonce env.draw, env.sendErr⟩]⟩) := by
  simp [login, hg, hv, hc, issue]

theorem login_consume_ok (cfg : Config) (env : Env) (m : Store) (req : Request)
    (hg : req.method ≠ MethodGet) (hv : matchMail cfg.suffix req.mail = true)
    (hc : req.code ≠ []) (hs : m req.mail = some req.code) :
    ∃ tok, signature env.now cfg.secret cfg.expires = some tok ∧
      login cfg env m req = some (true,
        ⟨SetCookie cfg.name tok cfg.domain cfg.expires true Response.blank,
          (consume m req.mail req.code).2, [], []⟩) := by
  have h1 : (consume m req.mail req.code).1 = true := (consume_fst m req.mail req.code).mpr hs
  refine ⟨_, signature_total env.now cfg.secret cfg.expires, ?_⟩
  simp only [login, hg, hv, hc, h1, setup, signature_total, if_false, if_true,
    Bool.true_eq_false, Option.bind_eq_bind, Option.some_bind]

theorem login_consume_fail (cfg : Config) (env : Env) (m : Store) (req : Request)
    (hg : req.method ≠ MethodGet) (hv : matchMail cfg.suffix req.mail = true)
    (hc : req.code ≠ []) (hs : m req.mail ≠ some req.code) :
    login cfg env m req = some (false,
      ⟨render ⟨req.mail, env.hostname req.redirect, env.now,
        some (cfg.dict (ascii "captcha.failed")), none, false, none, none⟩,
        (consume m req.mail req.code).2, [], []⟩) := by
  have h1 : (consume m req.mail req.code).1 = false := by
    cases h : (consume m req.mail req.code).1 with
    | false => rfl
    | true => exact absurd ((consume_fst m req.mail req.code).mp h) hs
  simp [login, hg, hv, hc, h1]

set_option maxRecDepth 100000 in
theorem sample_mail_valid : matchMail (ascii "allowed.com") (ascii "u@allowed.com") = true :=
  (matchMail_iff _ _).mpr ⟨⟨ascii "u", [ascii "allowed", ascii "com"],
    by decide, by decide, by decide, by decide, by decide, by decide⟩,
    (HasSuffix_iff _ _).mp (by decide)⟩

set_option maxRecDepth 100000 in
theorem sample_token_valid :
    verify 1000 (ascii "portier") (ascii "11f8.04747215074f0b5c") = some true := by decide

set_option maxRecDepth 100000 in
theorem sample_token_issued :
    signature 1000 (ascii "portier") 3600 = some (ascii "11f8.04747215074f0b5c") := by decide

theorem hexEscapeNonASCII_ascii (s : GoString) (h : ∀ b ∈ s, b.val < 128) :
    hexEscapeNonASCII s = s := by
  induction s with
  | nil => rfl
  | cons b rest ih =>
    have hb : ¬ 128 ≤ b.val := by
      have := h b (List.mem_cons_self _ _)
      omega
    have hr := ih (fun x hx => h x (List.mem_cons_of_mem _ hx))
    unfold hexEscapeNonASCII at hr ⊢
    rw [List.flatMap_cons, if_neg hb, hr]
    rfl

/-- A target in which `url.Parse` finds a scheme or a host, or which it rejects, and which
has no byte from `0x80` on, is the `Location` header as it stands. -/
theorem redirectLocation_verbatim (oldpath url : GoString) (h : ∀ b ∈ url, b.val < 128) :
    redirectLocation false oldpath url = url := by
  unfold redirectLocation
  rw [if_neg (by simp)]
  exact hexEscapeNonASCII_ascii url h

theorem redirectIfAny_cookie (env : Env) (req : Request) (r : Response) :
    (redirectIfAny env req r).cookie = r.cookie := by
  unfold redirectIfAny
  split_ifs <;> rfl

theorem redirectIfAny_page (env : Env) (req : Request) (r : Response) :
    (redirectIfAny env req r).page = r.page := by
  unfold redirectIfAny
  split_ifs <;> rfl

theorem redirectIfAny_status (env : Env) (req : Request) (r : Response) (h : r.status = 200) :
    (redirectIfAny env req r).status = (if req.redirect = [] then 200 else 302) := by
  unfold redirectIfAny
  split_ifs
  · exact h
  · rfl

theorem redirectIfAny_location (env : Env) (req : Request) (r : Response)
    (h : r.location = none) :
    (redirectIfAny env req r).location =
      (if req.redirect = [] then none
        else some (redirectLocation env.relative req.path req.redirect)) := by
  unfold redirectIfAny
  split_ifs
  · exact h
  · rfl

/-- C12 as amended (a valid session is honoured on every path). When the cookie of the
request makes `verify` return true, whatever the path, the method and the form values, the
handler answers with an empty 200 if there is no redirect target and otherwise with status
302 and the `Location` header that `http.Redirect` sets for the target: the target as it
stands when `url.Parse` finds a scheme or a host in it (or rejects it) and it has no byte
from `0x80` on, the target made absolute against the directory of the request path and
cleaned when it has neither scheme nor host. The status is never 401; the store is
unchanged, no mail is sent, no cookie is set and no login page is rendered. -/
theorem valid_session_honoured (cfg : Config) (env : Env) (m : Store) (req : Request)
    (v : GoString) (hc : req.cookie = some v) (hv : verify env.now cfg.secret v = some true) :
    ∃ out, handle cfg env m req = some out ∧
      out.resp = (if req.redirect = [] then ⟨200, none, none, none⟩
        else ⟨302, some (redirectLocation env.relative req.path req.redirect), none, none⟩) ∧
      (env.relative = false → (∀ b ∈ req.redirect, b.val < 128) →
        redirectLocation env.relative req.path req.redirect = req.redirect) ∧
      out.resp.status ≠ 401 ∧ out.store = m ∧ out.mails = [] ∧ out.log = [] ∧
      out.resp.cookie = none ∧ out.resp.page = none := by
  have hcheck : check cfg env.now req = some true := by
    unfold check
    rw [hc]
    exact hv
  refine ⟨_, handle_session cfg env m req hcheck, ?_, ?_, ?_, rfl, rfl, rfl, ?_, ?_⟩
  · by_cases hr : req.redirect = [] <;> simp [redirectIfAny, Response.blank, hr]
  · intro hrel hascii
    rw [hrel]
    exact redirectLocation_verbatim req.path req.redirect hascii
  · by_cases hr : req.redirect = [] <;> simp [redirectIfAny, Response.blank, hr]
  · by_cases hr : req.redirect = [] <;> simp [redirectIfAny, Response.blank, hr]
  · by_cases hr : req.redirect = [] <;> simp [redirectIfAny, Response.blank, hr]

set_option maxRecDepth 100000 in
/-- Witness: a GET of `/app` with a valid cookie and the redirect target `/next`, which is
clean and absolute and is the `Location` header. -/
theorem valid_session_honoured_witness :
    sampleSessionGet.cookie = some (ascii "11f8.04747215074f0b5c") ∧
    verify sampleEnv.now sampleCfg.secret (ascii "11f8.04747215074f0b5c") = some true ∧
    redirectLocation sampleEnv.relative sampleSessionGet.path sampleSessionGet.redirect
      = ascii "/next" ∧
    ∃ out, handle sampleCfg sampleEnv sampleStore sampleSessionGet = some out ∧
      out.resp = (if sampleSessionGet.redirect = [] then ⟨200, none, none, none⟩
        else ⟨302, some (redirectLocation sampleEnv.relative sampleSessionGet.path
          sampleSessionGet.redirect), none, none⟩) ∧
      (sampleEnv.relative = false → (∀ b ∈ sampleSessionGet.redirect, b.val < 128) →
        redirectLocation sampleEnv.relative sampleSessionGet.path sampleSessionGet.redirect
          = sampleSessionGet.redirect) ∧
      out.resp.status ≠ 401 ∧ out.store = sampleStore ∧ out.mails = [] ∧ out.log = [] ∧
      out.resp.cookie = none ∧ out.resp.page = none :=
  ⟨rfl, sample_token_valid, by decide,
    valid_session_honoured sampleCfg sampleEnv sampleStore sampleSessionGet _ rfl
      sample_token_valid⟩

set_option maxRecDepth 100000 in
/-- C12 refuted as stated. A GET of `/dir/page` with a valid cookie and the redirect target
`?a=1`, in which `url.Parse` finds neither scheme nor host: the handler answers 302 with the
`Location` header `/dir/?a=1`, which is not the redirect target (and not the page
`/dir/page` that the reference `?a=1` denotes there). -/
theorem valid_session_redirect_not_verbatim :
    sampleSessionQuery.cookie = some (ascii "11f8.04747215074f0b5c") ∧
    verify sampleEnv.now sampleCfg.secret (ascii "11f8.04747215074f0b5c") = some true ∧
    sampleSessionQuery.path = ascii "/dir/page" ∧
    sampleSessionQuery.redirect = ascii "?a=1" ∧
    (handle sampleCfg sampleEnv sampleStore sampleSessionQuery).map (fun out => out.resp) =
      some ⟨302, some (ascii "/dir/?a=1"), none, none⟩ ∧
    ascii "/dir/?a=1" ≠ sampleSessionQuery.redirect := by
  refine ⟨rfl, sample_token_valid, rfl, rfl, ?_, by decide⟩
  rw [handle_session sampleCfg sampleEnv sampleStore sampleSessionQuery sample_token_valid]
  decide

/-- C13 (unauthenticated off the login path). A request whose path is not the login path and
which carries no cookie, or a cookie that `verify` rejects, is answered with status 401 and
nothing else: no redirect even with a redirect target, no cookie, no page, the store
unchanged and no mail. -/
theorem unauthenticated_gets_401 (cfg : Config) (env : Env) (m : Store) (req : Request)
    (hp : cfg.uri ≠ req.path)
    (hc : req.cookie = none ∨
      ∃ v, req.cookie = some v ∧ verify env.now cfg.secret v = some false) :
    ∃ out, handle cfg env m req = some out ∧ out.resp = ⟨401, none, none, none⟩ ∧
      out.store = m ∧ out.mails = [] ∧ out.log = [] :=
  ⟨_, handle_off_login cfg env m req (check_of_no_session cfg env.now req hc) hp,
    rfl, rfl, rfl, rfl⟩

/-- Witness: a GET of `/app` without cookie, with the redirect target `/next`. -/
theorem unauthenticated_gets_401_witness :
    sampleCfg.uri ≠ sampleAnonymousGet.path ∧
    (sampleAnonymousGet.cookie = none ∨ ∃ v, sampleAnonymousGet.cookie = some v ∧
      verify sampleEnv.now sampleCfg.secret v = some false) ∧
    ∃ out, handle sampleCfg sampleEnv sampleStore sampleAnonymousGet = some out ∧
      out.resp = ⟨401, none, none, none⟩ ∧ out.store = sampleStore ∧ out.mails = [] ∧
      out.log = [] :=
  ⟨by decide, Or.inl rfl,
    unauthenticated_gets_401 sampleCfg sampleEnv sampleStore sampleAnonymousGet (by decide)
      (Or.inl rfl)⟩

/-- C14 (challenge issuance). A request to the login path that is not a GET, has no valid
session, a mail address that passes the allow-list and an empty code: afterwards the store
maps the address to the code just drawn and is otherwise unchanged, the mail collaborator
has been called once, with that address and a context holding that code, no cookie is set,
and the login page is rendered with the required flag and the code-sent message. -/
theorem challenge_issued (cfg : Config) (env : Env) (m : Store) (req : Request)
    (hc : req.cookie = none ∨
      ∃ v, req.cookie = some v ∧ verify env.now cfg.secret v = some false)
    (hp : cfg.uri = req.path) (hg : req.method ≠ MethodGet)
    (hv : matchMail cfg.suffix req.mail = true) (hcode : req.code = []) :
    ∃ out, handle cfg env m req = some out ∧
      out.store req.mail = some (nonce env.draw) ∧
      (∀ e : GoString, e ≠ req.mail → out.store e = m e) ∧
      (∃ ctx : Page, out.mails = [(req.mail, ctx)] ∧ ctx.code = some (nonce env.draw)) ∧
      out.resp.cookie = none ∧ out.resp.status = 200 ∧ out.resp.location = none ∧
      (∃ p : Page, out.resp.page = some p ∧ p.required = true ∧
        p.message = some (cfg.dict (ascii "captcha.sent")) ∧
        p.code = some (nonce env.draw) ∧ p.mail = req.mail) := by
  have h := handle_login cfg env m req (check_of_no_session cfg env.now req hc) hp
  rw [login_issue cfg env m req hg hv hcode] at h
  refine ⟨_, h, ?_, ?_, ⟨_, rfl, rfl⟩, rfl, rfl, rfl, ⟨_, rfl, rfl, rfl, rfl, rfl⟩⟩
  · simp [Store.store]
  · intro e he
    simp [Store.store, he]

/-- Witness: the POST of `u@allowed.com` without code. -/
theorem challenge_issued_witness :
    (sampleMailPost.cookie = none ∨ ∃ v, sampleMailPost.cookie = some v ∧
      verify sampleEnv.now sampleCfg.secret v = some false) ∧
    sampleCfg.uri = sampleMailPost.path ∧ sampleMailPost.method ≠ MethodGet ∧
    matchMail sampleCfg.suffix sampleMailPost.mail = true ∧ sampleMailPost.code = [] ∧
    ∃ out, handle sampleCfg sampleEnv sampleStore sampleMailPost = some out ∧
      out.store sampleMailPost.mail = some (nonce sampleEnv.draw) ∧
      (∀ e : GoString, e ≠ sampleMailPost.mail → out.store e = sampleStore e) ∧
      (∃ ctx : Page, out.mails = [(sampleMailPost.mail, ctx)] ∧
        ctx.code = some (nonce sampleEnv.draw)) ∧
      out.resp.cookie = none ∧ out.resp.status = 200 ∧ out.resp.location = none ∧
      (∃ p : Page, out.resp.page = some p ∧ p.required = true ∧
        p.message = some (sampleCfg.dict (ascii "captcha.sent")) ∧
        p.code = some (nonce sampleEnv.draw) ∧ p.mail = sampleMailPost.mail) :=
  ⟨Or.inl rfl, by decide, by decide, sample_mail_valid, rfl,
    challenge_issued sampleCfg sampleEnv sampleStore sampleMailPost (Or.inl rfl) (by decide)
      (by decide) sample_mail_valid rfl⟩

theorem handle_challenge_success (cfg : Config) (env : Env) (m : Store) (req : Request)
    (hc : req.cookie = none ∨
      ∃ v, req.cookie = some v ∧ verify env.now cfg.secret v = some false)
    (hp : cfg.uri = req.path) (hg : req.method ≠ MethodGet)
    (hv : matchMail cfg.suffix req.mail = true) (hcode : req.code ≠ [])
    (hs : m req.mail = some req.code) :
    ∃ tok, signature env.now cfg.secret cfg.expires = some tok ∧
      handle cfg env m req = some
        ⟨redirectIfAny env req
          (SetCookie cfg.name tok cfg.domain cfg.expires true Response.blank),
          (consume m req.mail req.code).2, [], []⟩ := by
  obtain ⟨tok, ht, hl⟩ := login_consume_ok cfg env m req hg hv hcode hs
  refine ⟨tok, ht, ?_⟩
  rw [handle_login cfg env m req (check_of_no_session cfg env.now req hc) hp, hl]
  rfl

set_option maxRecDepth 100000 in
theorem token_bytes_valid : ∀ c : Byte, isLowerHex c ∨ c = 45 ∨ c = dot →
    validCookieValueByte c = true ∧ c ≠ 32 ∧ c ≠ 44 := by decide

/-- The value of a token of `signature` goes into the `Set-Cookie` line as it is: it has no
byte that `sanitizeCookieValue` drops and none that makes it quote the value. -/
theorem sanitizeCookieValue_token (now : Int) (secret : GoString) (ttl : Int)
    (tok : GoString) (h : signature now secret ttl = some tok) :
    sanitizeCookieValue tok = tok := by
  obtain ⟨hne, hb⟩ := signature_bytes now secret ttl tok h
  have hf : tok.filter validCookieValueByte = tok :=
    List.filter_eq_self.mpr (fun c hc => (token_bytes_valid c (hb c hc)).1)
  unfold sanitizeCookieValue
  simp only [hf]
  rw [if_neg hne, if_neg]
  rintro (h32 | h44)
  · exact (token_bytes_valid _ (hb _ h32)).2.1 rfl
  · exact (token_bytes_valid _ (hb _ h44)).2.2 rfl

/-- The `Set-Cookie` line for a token of `signature` under a valid cookie name and a
positive lifetime. -/
theorem SetCookie_token (cfg : Config) (now : Int) (tok : GoString) (resp : Response)
    (h : signature now cfg.secret cfg.expires = some tok)
    (hname : isCookieNameValid cfg.name = true) (hexp : 0 < cfg.expires) :
    SetCookie cfg.name tok cfg.domain cfg.expires true resp =
      ⟨resp.status, resp.location,
        some ⟨cfg.name, tok, cookieDomainAttr cfg.domain, some cfg.expires, true⟩,
        resp.page⟩ := by
  unfold SetCookie
  rw [if_pos hname, sanitizeCookieValue_token now cfg.secret cfg.expires tok h]
  unfold cookieMaxAgeAttr
  rw [if_pos hexp]

/-- C15 as amended (challenge success). A request to the login path that is not a GET, has
no valid session, a mail address that passes the allow-list and a non-empty code equal to
the code stored for the address, handled with a cookie name that is a valid cookie name (a
non-empty HTTP token) and a cookie lifetime `> 0`, at a clock reading `now` (an `int64`)
below `2^62` with `now + lifetime < 2^63`: the response carries the `Set-Cookie` line with
the configured name, `HttpOnly`, `Max-Age` the lifetime, the `Domain` attribute that
`Cookie.String` writes for the configured domain, and a value that `verify` accepts under
the configured secret at that same time; no login page is rendered; the response is an empty
200 if there is no redirect target and otherwise has status 302 and the `Location` header
that `http.Redirect` sets for the target (the target as it stands when `url.Parse` finds a
scheme or a host in it, or rejects it, and it has no byte from `0x80` on). -/
theorem challenge_success_sets_valid_cookie (cfg : Config) (env : Env) (m : Store)
    (req : Request)
    (hc : req.cookie = none ∨
      ∃ v, req.cookie = some v ∧ verify env.now cfg.secret v = some false)
    (hp : cfg.uri = req.path) (hg : req.method ≠ MethodGet)
    (hv : matchMail cfg.suffix req.mail = true) (hcode : req.code ≠ [])
    (hs : m req.mail = some req.code) (hname : isCookieNameValid cfg.name = true)
    (hexp : 0 < cfg.expires) (hlo : -2 ^ 63 ≤ env.now) (hnow : env.now < 2 ^ 62)
    (h63 : env.now + cfg.expires < 2 ^ 63) :
    ∃ out tok, handle cfg env m req = some out ∧
      out.resp.cookie =
        some ⟨cfg.name, tok, cookieDomainAttr cfg.domain, some cfg.expires, true⟩ ∧
      verify env.now cfg.secret tok = some true ∧ out.resp.page = none ∧
      out.resp.status = (if req.redirect = [] then 200 else 302) ∧
      out.resp.location = (if req.redirect = [] then none
        else some (redirectLocation env.relative req.path req.redirect)) ∧
      (env.relative = false → (∀ b ∈ req.redirect, b.val < 128) →
        redirectLocation env.relative req.path req.redirect = req.redirect) ∧
      out.mails = [] ∧ out.store req.mail = none := by
  obtain ⟨tok, ht, hh⟩ := handle_challenge_success cfg env m req hc hp hg hv hcode hs
  obtain ⟨tok2, ht2, hver⟩ := verify_signature cfg.secret env.now cfg.expires env.now
  have htok : tok2 = tok := Option.some.inj (ht2.symm.trans ht)
  subst htok
  have hval : env.now ≤
      (ParseInt (AppendInt16 (wrapInt64 (env.now + cfg.expires))) 16 63).1 := by
    rw [wrapInt64_id _ (by omega) h63, ParseInt_AppendInt16_val _ (by omega) h63]
    omega
  rw [SetCookie_token cfg env.now tok2 Response.blank ht hname hexp] at hh
  refine ⟨_, tok2, hh, ?_, ?_, ?_, ?_, ?_, ?_, rfl, consume_snd_self m req.mail req.code⟩
  · rw [redirectIfAny_cookie]
  · rw [hver]
    simp [hval]
  · rw [redirectIfAny_page]
    rfl
  · exact redirectIfAny_status env req _ rfl
  · exact redirectIfAny_location env req _ rfl
  · intro hrel hascii
    rw [hrel]
    exact redirectLocation_verbatim req.path req.redirect hascii

set_option maxRecDepth 100000 in
/-- Witness: the POST of `u@allowed.com` with the pending code 1234 and the redirect target
`/app`. -/
theorem challenge_success_sets_valid_cookie_witness :
    (sampleCodePost.cookie = none ∨ ∃ v, sampleCodePost.cookie = some v ∧
      verify sampleEnv.now sampleCfg.secret v = some false) ∧
    sampleCfg.uri = sampleCodePost.path ∧ sampleCodePost.method ≠ MethodGet ∧
    matchMail sampleCfg.suffix sampleCodePost.mail = true ∧ sampleCodePost.code ≠ [] ∧
    sampleStore sampleCodePost.mail = some sampleCodePost.code ∧
    isCookieNameValid sampleCfg.name = true ∧ 0 < sampleCfg.expires ∧
    -2 ^ 63 ≤ sampleEnv.now ∧ sampleEnv.now < 2 ^ 62 ∧
    sampleEnv.now + sampleCfg.expires < 2 ^ 63 ∧
    redirectLocation sampleEnv.relative sampleCodePost.path sampleCodePost.redirect
      = ascii "/app" ∧
    ∃ out tok, handle sampleCfg sampleEnv sampleStore sampleCodePost = some out ∧
      out.resp.cookie =
        some ⟨sampleCfg.name, tok, cookieDomainAttr sampleCfg.domain, some sampleCfg.expires,
          true⟩ ∧
      verify sampleEnv.now sampleCfg.secret tok = some true ∧ out.resp.page = none ∧
      out.resp.status = (if sampleCodePost.redirect = [] then 200 else 302) ∧
      out.resp.location = (if sampleCodePost.redirect = [] then none
        else some (redirectLocation sampleEnv.relative sampleCodePost.path
          sampleCodePost.redirect)) ∧
      (sampleEnv.relative = false → (∀ b ∈ sampleCodePost.redirect, b.val < 128) →
        redirectLocation sampleEnv.relative sampleCodePost.path sampleCodePost.redirect
          = sampleCodePost.redirect) ∧
      out.mails = [] ∧ out.store sampleCodePost.mail = none :=
  ⟨Or.inl rfl, by decide, by decide, sample_mail_valid, by decide, by decide, by decide,
    by decide, by decide, by decide, by decide, by decide,
    challenge_success_sets_valid_cookie sampleCfg sampleEnv sampleStore sampleCodePost
      (Or.inl rfl) (by decide) (by decide) sample_mail_valid (by decide) (by decide)
      (by decide) (by decide) (by decide) (by decide) (by decide)⟩

set_option maxRecDepth 100000 in
theorem overflow_token_issued :
    signature 1700000000 (ascii "portier") (2 ^ 63 - 1)
      = some (ascii "-7fffffff9aac0f01.a6362fe4ed207cb2") := by decide

set_option maxRecDepth 100000 in
theorem overflow_token_rejected :
    verify 1700000000 (ascii "portier") (ascii "-7fffffff9aac0f01.a6362fe4ed207cb2")
      = some false := by decide

set_option maxRecDepth 100000 in
theorem late_token_issued :
    signature (2 ^ 62) (ascii "portier") 1
      = some (ascii "4000000000000001.1fc8fb065b82d9a2") := by decide

set_option maxRecDepth 100000 in
theorem late_token_rejected :
    verify (2 ^ 62) (ascii "portier") (ascii "4000000000000001.1fc8fb065b82d9a2")
      = some false := by decide

/-- The cookie of the response to the POST of `u@allowed.com` with the pending code 1234,
under any configuration in which that request reaches the code comparison. -/
theorem sample_code_cookie (cfg : Config) (env : Env) (tok : GoString)
    (hp : cfg.uri = sampleCodePost.path) (hv : matchMail cfg.suffix sampleCodePost.mail = true)
    (ht : signature env.now cfg.secret cfg.expires = some tok) :
    (handle cfg env sampleStore sampleCodePost).map (fun out => out.resp) =
      some (redirectIfAny env sampleCodePost
        (SetCookie cfg.name tok cfg.domain cfg.expires true Response.blank)) := by
  obtain ⟨tok2, ht2, hh⟩ := handle_challenge_success cfg env sampleStore sampleCodePost
    (Or.inl rfl) hp (by decide) hv (by decide) (by decide)
  have htok : tok2 = tok := Option.some.inj (ht2.symm.trans ht)
  subst htok
  rw [hh]
  rfl

set_option maxRecDepth 100000 in
/-- C15 refuted as stated, on the request that submits the pending code 1234 for
`u@allowed.com`, each time with a cookie lifetime `> 0`. With the lifetime `2^63 - 1` at
second 1700000000 the sum `now + lifetime` wraps to a negative `int64`: the cookie value is
`-7fffffff9aac0f01.a6362fe4ed207cb2`, and `verify` rejects it at the same second. With the
lifetime 1 at second `2^62` the cookie value is `4000000000000001.1fc8fb065b82d9a2`, whose
expiry the parser clamps to `2^62 - 1`, and `verify` rejects it at the same second. With the
cookie name `bad name`, which is not a token, the response is the 302 redirect without any
`Set-Cookie` line. -/
theorem challenge_success_cookie_invalid_on_overflow :
    ((0 : Int) < ({ sampleCfg with expires := 2 ^ 63 - 1 } : Config).expires ∧
      (handle { sampleCfg with expires := 2 ^ 63 - 1 } { sampleEnv with now := 1700000000 }
        sampleStore sampleCodePost).map (fun out => out.resp.cookie) =
        some (some ⟨ascii "portier", ascii "-7fffffff9aac0f01.a6362fe4ed207cb2", [],
          some (2 ^ 63 - 1), true⟩) ∧
      verify 1700000000 (ascii "portier") (ascii "-7fffffff9aac0f01.a6362fe4ed207cb2")
        = some false) ∧
    ((0 : Int) < ({ sampleCfg with expires := 1 } : Config).expires ∧
      (handle { sampleCfg with expires := 1 } { sampleEnv with now := 2 ^ 62 }
        sampleStore sampleCodePost).map (fun out => out.resp.cookie) =
        some (some ⟨ascii "portier", ascii "4000000000000001.1fc8fb065b82d9a2", [],
          some 1, true⟩) ∧
      verify (2 ^ 62) (ascii "portier") (ascii "4000000000000001.1fc8fb065b82d9a2")
        = some false) ∧
    ((0 : Int) < ({ sampleCfg with name := ascii "bad name" } : Config).expires ∧
      (handle { sampleCfg with name := ascii "bad name" } sampleEnv sampleStore
        sampleCodePost).map (fun out => out.resp) =
        some ⟨302, some (ascii "/app"), none, none⟩) := by
  have h1 := sample_code_cookie { sampleCfg with expires := 2 ^ 63 - 1 }
    { sampleEnv with now := 1700000000 } _ (by decide) sample_mail_valid overflow_token_issued
  have h2 := sample_code_cookie { sampleCfg with expires := 1 }
    { sampleEnv with now := 2 ^ 62 } _ (by decide) sample_mail_valid late_token_issued
  have h3 := sample_code_cookie { sampleCfg with name := ascii "bad name" } sampleEnv _
    (by decide) sample_mail_valid sample_token_issued
  refine ⟨⟨by decide, ?_, overflow_token_rejected⟩, ⟨by decide, ?_, late_token_rejected⟩,
    by decide, ?_⟩
  · have h := congrArg (Option.map (fun r : Response => r.cookie)) h1
    rw [Option.map_map] at h
    rw [show ((fun out : Outcome => out.resp.cookie) =
      (fun r : Response => r.cookie) ∘ (fun out : Outcome => out.resp)) from rfl, h]
    decide
  · have h := congrArg (Option.map (fun r : Response => r.cookie)) h2
    rw [Option.map_map] at h
    rw [show ((fun out : Outcome => out.resp.cookie) =
      (fun r : Response => r.cookie) ∘ (fun out : Outcome => out.resp)) from rfl, h]
    decide
  · rw [h3]
    decide

/-- C16 (the mail outcome does not reach the response). In the challenge-issuance case, two
runs that differ only in the error with which the mail transport ends both complete, with
the same response (status, headers, cookie, page context with its message and required
flag), the same store and the same call of the mail collaborator. -/
theorem mail_outcome_not_in_response (cfg : Config) (env : Env) (m : Store) (req : Request)
    (hc : req.cookie = none ∨
      ∃ v, req.cookie = some v ∧ verify env.now cfg.secret v = some false)
    (hp : cfg.uri = req.path) (hg : req.method ≠ MethodGet)
    (hv : matchMail cfg.suffix req.mail = true) (hcode : req.code = [])
    (err1 err2 : Option GoString) :
    ∃ out1 out2, handle cfg { env with sendErr := err1 } m req = some out1 ∧
      handle cfg { env with sendErr := err2 } m req = some out2 ∧
      out1.resp = out2.resp ∧ out1.store = out2.store ∧ out1.mails = out2.mails ∧
      out1.mails ≠ [] ∧
      (∃ p : Page, out1.resp.page = some p ∧ p.required = true ∧
        p.message = some (cfg.dict (ascii "captcha.sent"))) := by
  have h1 := handle_login cfg { env with sendErr := err1 } m req
    (check_of_no_session cfg env.now req hc) hp
  have h2 := handle_login cfg { env with sendErr := err2 } m req
    (check_of_no_session cfg env.now req hc) hp
  rw [login_issue cfg _ m req hg hv hcode] at h1 h2
  exact ⟨_, _, h1, h2, rfl, rfl, rfl, by simp, ⟨_, rfl, rfl, rfl⟩⟩

/-- Witness: the POST of `u@allowed.com` without code, the transport succeeding in one run
and failing in the other. -/
theorem mail_outcome_not_in_response_witness :
    (sampleMailPost.cookie = none ∨ ∃ v, sampleMailPost.cookie = some v ∧
      verify sampleEnv.now sampleCfg.secret v = some false) ∧
    sampleCfg.uri = sampleMailPost.path ∧ sampleMailPost.method ≠ MethodGet ∧
    matchMail sampleCfg.suffix sampleMailPost.mail = true ∧ sampleMailPost.code = [] ∧
    ∃ out1 out2,
      handle sampleCfg { sampleEnv with sendErr := none } sampleStore sampleMailPost
        = some out1 ∧
      handle sampleCfg { sampleEnv with sendErr := some (ascii "dial tcp: refused") }
        sampleStore sampleMailPost = some out2 ∧
      out1.resp = out2.resp ∧ out1.store = out2.store ∧ out1.mails = out2.mails ∧
      out1.mails ≠ [] ∧
      (∃ p : Page, out1.resp.page = some p ∧ p.required = true ∧
        p.message = some (sampleCfg.dict (ascii "captcha.sent"))) :=
  ⟨Or.inl rfl, by decide, by decide, sample_mail_valid, rfl,
    mail_outcome_not_in_response sampleCfg sampleEnv sampleStore sampleMailPost (Or.inl rfl)
      (by decide) (by decide) sample_mail_valid rfl none (some (ascii "dial tcp: refused"))⟩

theorem matchMail_cases (str val : GoString) :
    matchMail str val = true ∨ matchMail str val = false := by
  cases matchMail str val
  · right; rfl
  · left; rfl

/-- The handler's outcome in each of its seven cases. -/
theorem handle_cases (cfg : Config) (env : Env) (m : Store) (req : Request) (out : Outcome)
    (h : handle cfg env m req = some out) :
    (check cfg env.now req = some true ∧
      out = ⟨redirectIfAny env req Response.blank, m, [], []⟩) ∨
    (check cfg env.now req = some false ∧ cfg.uri ≠ req.path ∧
      out = ⟨⟨401, none, none, none⟩, m, [], []⟩) ∨
    (check cfg env.now req = some false ∧ cfg.uri = req.path ∧ req.method = MethodGet ∧
      out = ⟨render ⟨req.mail, env.hostname req.redirect, env.now, none, none, false, none,
        none⟩, m, [], []⟩) ∨
    (check cfg env.now req = some false ∧ cfg.uri = req.path ∧ req.method ≠ MethodGet ∧
      matchMail cfg.suffix req.mail = false ∧
      out = ⟨render ⟨req.mail, env.hostname req.redirect, env.now,
        some (cfg.dict (ascii "mail.reject")), none, false, none, none⟩, m, [], []⟩) ∨
    (check cfg env.now req = some false ∧ cfg.uri = req.path ∧ req.method ≠ MethodGet ∧
      matchMail cfg.suffix req.mail = true ∧ req.code = [] ∧
      out = ⟨render ⟨req.mail, env.hostname req.redirect, env.now,
        some (cfg.dict (ascii "captcha.sent")), some (nonce env.draw), true, some req.mail,
        some cfg.mailUser⟩,
        m.store req.mail (nonce env.draw),
        [(req.mail, ⟨req.mail, env.hostname req.redirect, env.now,
          some (cfg.dict (ascii "captcha.sent")), some (nonce env.draw), true, none, none⟩)],
        [⟨req.mail, nonce env.draw, env.sendErr⟩]⟩) ∨
    (check cfg env.now req = some false ∧ cfg.uri = req.path ∧ req.method ≠ MethodGet ∧
      matchMail cfg.suffix req.mail = true ∧ req.code ≠ [] ∧ m req.mail = some req.code ∧
      ∃ tok, signature env.now cfg.secret cfg.expires = some tok ∧
        out = ⟨redirectIfAny env req
          (SetCookie cfg.name tok cfg.domain cfg.expires true Response.blank),
          (consume m req.mail req.code).2, [], []⟩) ∨
    (check cfg env.now req = some false ∧ cfg.uri = req.path ∧ req.method ≠ MethodGet ∧
      matchMail cfg.suffix req.mail = true ∧ req.code ≠ [] ∧ m req.mail ≠ some req.code ∧
      out = ⟨render ⟨req.mail, env.hostname req.redirect, env.now,
        some (cfg.dict (ascii "captcha.failed")), none, false, none, none⟩,
        (consume m req.mail req.code).2, [], []⟩) := by
  rcases check_defined cfg env.now req with hck | hck
  · rw [handle_session cfg env m req hck] at h
    exact Or.inl ⟨hck, (Option.some.inj h).symm⟩
  · by_cases hp : cfg.uri = req.path
    · rw [handle_login cfg env m req hck hp] at h
      by_cases hg : req.method = MethodGet
      · rw [login_get cfg env m req hg] at h
        exact Or.inr (Or.inr (Or.inl ⟨hck, hp, hg, (Option.some.inj h).symm⟩))
      · rcases matchMail_cases cfg.suffix req.mail with hv | hv
        · by_cases hcode : req.code = []
          · rw [login_issue cfg env m req hg hv hcode] at h
            exact Or.inr (Or.inr (Or.inr (Or.inr (Or.inl
              ⟨hck, hp, hg, hv, hcode, (Option.some.inj h).symm⟩))))
          · by_cases hs : m req.mail = some req.code
            · obtain ⟨tok, ht, hl⟩ := login_consume_ok cfg env m req hg hv hcode hs
              rw [hl] at h
              exact Or.inr (Or.inr (Or.inr (Or.inr (Or.inr (Or.inl
                ⟨hck, hp, hg, hv, hcode, hs, tok, ht, (Option.some.inj h).symm⟩)))))
            · rw [login_consume_fail cfg env m req hg hv hcode hs] at h
              exact Or.inr (Or.inr (Or.inr (Or.inr (Or.inr (Or.inr
                ⟨hck, hp, hg, hv, hcode, hs, (Option.some.inj h).symm⟩)))))
        · rw [login_reject cfg env m req hg hv] at h
          exact Or.inr (Or.inr (Or.inr (Or.inl ⟨hck, hp, hg, hv, (Option.some.inj h).symm⟩)))
    · rw [handle_off_login cfg env m req hck hp] at h
      exact Or.inr (Or.inl ⟨hck, hp, (Option.some.inj h).symm⟩)

theorem consume_snd_none_or_same (m : Store) (mail code e : GoString) :
    (consume m mail code).2 e = none ∨ (consume m mail code).2 e = m e := by
  by_cases he : e = mail
  · left; rw [he]; exact consume_snd_self m mail code
  · right; exact consume_snd_other m mail code e he

/-- C18 as amended (codes are issued only in the challenge-issuance case). Whenever a run of
the handler calls the mail collaborator or leaves in the store a code that was not there,
the request had no valid session, was for the login path, was not a GET, had a mail address
that passes the allow-list and an empty code. A GET of the login path without valid session
renders the login page without message and without required flag, whatever `mail` and
`code` it carries; a request to the login path without valid session that is not a GET and
whose mail address fails the allow-list renders the rejection message; both leave the store
unchanged and send no mail. -/
theorem codes_issued_only_in_challenge (cfg : Config) (env : Env) (m : Store) (req : Request)
    (out : Outcome) (h : handle cfg env m req = some out) :
    ((out.mails ≠ [] ∨ ∃ e : GoString, out.store e ≠ none ∧ out.store e ≠ m e) →
      check cfg env.now req = some false ∧ cfg.uri = req.path ∧ req.method ≠ MethodGet ∧
        matchMail cfg.suffix req.mail = true ∧ req.code = []) ∧
    (check cfg env.now req = some false → cfg.uri = req.path → req.method = MethodGet →
      out.resp = render ⟨req.mail, env.hostname req.redirect, env.now, none, none, false,
        none, none⟩ ∧ out.store = m ∧ out.mails = []) ∧
    (check cfg env.now req = some false → cfg.uri = req.path → req.method ≠ MethodGet →
      matchMail cfg.suffix req.mail = false →
      out.resp = render ⟨req.mail, env.hostname req.redirect, env.now,
        some (cfg.dict (ascii "mail.reject")), none, false, none, none⟩ ∧
        out.store = m ∧ out.mails = []) := by
  rcases handle_cases cfg env m req out h with ⟨hck, rfl⟩ | ⟨hck, hp, rfl⟩ |
    ⟨hck, hp, hg, rfl⟩ | ⟨hck, hp, hg, hv, rfl⟩ | ⟨hck, hp, hg, hv, hcode, rfl⟩ |
    ⟨hck, hp, hg, hv, hcode, hs, tok, ht, rfl⟩ | ⟨hck, hp, hg, hv, hcode, hs, rfl⟩
  · refine ⟨?_, ?_, ?_⟩
    · rintro (h1 | ⟨e, _, h2⟩)
      · exact absurd rfl h1
      · exact absurd rfl h2
    · intro h1; rw [hck] at h1; cases h1
    · intro h1; rw [hck] at h1; cases h1
  · refine ⟨?_, fun _ h2 => absurd h2 hp, fun _ h2 => absurd h2 hp⟩
    rintro (h1 | ⟨e, _, h2⟩)
    · exact absurd rfl h1
    · exact absurd rfl h2
  · refine ⟨?_, fun _ _ _ => ⟨rfl, rfl, rfl⟩, fun _ _ h3 => absurd hg h3⟩
    rintro (h1 | ⟨e, _, h2⟩)
    · exact absurd rfl h1
    · exact absurd rfl h2
  · refine ⟨?_, fun _ _ h3 => absurd h3 hg, fun _ _ _ _ => ⟨rfl, rfl, rfl⟩⟩
    rintro (h1 | ⟨e, _, h2⟩)
    · exact absurd rfl h1
    · exact absurd rfl h2
  · refine ⟨fun _ => ⟨hck, hp, hg, hv, hcode⟩, fun _ _ h3 => absurd h3 hg, ?_⟩
    intro _ _ _ h4
    rw [hv] at h4
    cases h4
  · refine ⟨?_, fun _ _ h3 => absurd h3 hg, ?_⟩
    · rintro (h1 | ⟨e, h2, h3⟩)
      · exact absurd rfl h1
      · rcases consume_snd_none_or_same m req.mail req.code e with h4 | h4
        · exact absurd h4 h2
        · exact absurd h4 h3
    · intro _ _ _ h4
      rw [hv] at h4
      cases h4
  · refine ⟨?_, fun _ _ h3 => absurd h3 hg, ?_⟩
    · rintro (h1 | ⟨e, h2, h3⟩)
      · exact absurd rfl h1
      · rcases consume_snd_none_or_same m req.mail req.code e with h4 | h4
        · exact absurd h4 h2
        · exact absurd h4 h3
    · intro _ _ _ h4
      rw [hv] at h4
      cases h4

theorem sample_get_outcome :
    handle sampleCfg sampleEnv sampleStore sampleGet = some
      ⟨render ⟨ascii "not-an-email", [], 1000, none, none, false, none, none⟩, sampleStore,
        [], []⟩ := by
  rw [handle_login sampleCfg sampleEnv sampleStore sampleGet rfl (by decide),
    login_get sampleCfg sampleEnv sampleStore sampleGet (by decide)]
  rfl

/-- Witness: the GET of the login path with `mail=not-an-email`. -/
theorem codes_issued_only_in_challenge_witness :
    handle sampleCfg sampleEnv sampleStore sampleGet = some
      ⟨render ⟨ascii "not-an-email", [], 1000, none, none, false, none, none⟩, sampleStore,
        [], []⟩ ∧
    ((([] : List (GoString × Page)) ≠ [] ∨
        ∃ e : GoString, sampleStore e ≠ none ∧ sampleStore e ≠ sampleStore e) →
      check sampleCfg sampleEnv.now sampleGet = some false ∧ sampleCfg.uri = sampleGet.path ∧
        sampleGet.method ≠ MethodGet ∧ matchMail sampleCfg.suffix sampleGet.mail = true ∧
        sampleGet.code = []) ∧
    (check sampleCfg sampleEnv.now sampleGet = some false → sampleCfg.uri = sampleGet.path →
      sampleGet.method = MethodGet →
      (render ⟨ascii "not-an-email", [], 1000, none, none, false, none, none⟩ : Response) =
        render ⟨sampleGet.mail, sampleEnv.hostname sampleGet.redirect, sampleEnv.now, none,
          none, false, none, none⟩ ∧ sampleStore = sampleStore ∧
        ([] : List (GoString × Page)) = []) ∧
    (check sampleCfg sampleEnv.now sampleGet = some false → sampleCfg.uri = sampleGet.path →
      sampleGet.method ≠ MethodGet → matchMail sampleCfg.suffix sampleGet.mail = false →
      (render ⟨ascii "not-an-email", [], 1000, none, none, false, none, none⟩ : Response) =
        render ⟨sampleGet.mail, sampleEnv.hostname sampleGet.redirect, sampleEnv.now,
          some (sampleCfg.dict (ascii "mail.reject")), none, false, none, none⟩ ∧
        sampleStore = sampleStore ∧ ([] : List (GoString × Page)) = []) :=
  ⟨sample_get_outcome,
    codes_issued_only_in_challenge sampleCfg sampleEnv sampleStore sampleGet _
      sample_get_outcome⟩

set_option maxRecDepth 100000 in
/-- C18 refuted as stated. The GET of the login path with `mail=not-an-email` and no cookie
has a mail address that fails the allow-list, yet the page it renders carries no message,
not the rejection message `rejected` of the dictionary. -/
theorem get_with_bad_mail_shows_no_rejection :
    matchMail sampleCfg.suffix sampleGet.mail = false ∧
    sampleCfg.dict (ascii "mail.reject") = ascii "rejected" ∧
    (handle sampleCfg sampleEnv sampleStore sampleGet).map (fun out => out.resp) =
      some ⟨200, none, none,
        some ⟨ascii "not-an-email", [], 1000, none, none, false, none, none⟩⟩ ∧
    (handle sampleCfg sampleEnv sampleStore sampleGet).map
      (fun out => out.resp.page.map (fun p => p.message)) ≠
        some (some (some (ascii "rejected"))) := by
  refine ⟨?_, by decide, ?_, ?_⟩
  · cases h : matchMail sampleCfg.suffix sampleGet.mail with
    | false => rfl
    | true =>
      exfalso
      obtain ⟨⟨_, _, _, _, _, _, _, hc⟩, _⟩ := (matchMail_iff _ _).mp h
      revert hc
      decide
  · rw [sample_get_outcome]; rfl
  · rw [sample_get_outcome]; decide

/-- C20 (no cookie without a code match). If the response sets the session cookie, then the
request had no valid session, was for the login path, was not a GET, had a mail address
that passes the allow-list and a non-empty code, the store held for that address a code
equal to the submitted one, and the run removed it. -/
theorem cookie_only_after_code_match (cfg : Config) (env : Env) (m : Store) (req : Request)
    (out : Outcome) (h : handle cfg env m req = some out) (hcookie : out.resp.cookie ≠ none) :
    check cfg env.now req = some false ∧
      (∀ v, req.cookie = some v → verify env.now cfg.secret v = some false) ∧
      cfg.uri = req.path ∧ req.method ≠ MethodGet ∧
      matchMail cfg.suffix req.mail = true ∧ req.code ≠ [] ∧
      m req.mail = some req.code ∧ out.store req.mail = none := by
  have hred : ∀ r : Response, (redirectIfAny env req r).cookie = r.cookie :=
    redirectIfAny_cookie env req
  rcases handle_cases cfg env m req out h with ⟨hck, rfl⟩ | ⟨hck, hp, rfl⟩ |
    ⟨hck, hp, hg, rfl⟩ | ⟨hck, hp, hg, hv, rfl⟩ | ⟨hck, hp, hg, hv, hcode, rfl⟩ |
    ⟨hck, hp, hg, hv, hcode, hs, tok, ht, rfl⟩ | ⟨hck, hp, hg, hv, hcode, hs, rfl⟩
  · exact absurd (hred _) hcookie
  · exact absurd rfl hcookie
  · exact absurd rfl hcookie
  · exact absurd rfl hcookie
  · exact absurd rfl hcookie
  · refine ⟨hck, ?_, hp, hg, hv, hcode, hs, consume_snd_self m req.mail req.code⟩
    intro v hv'
    unfold check at hck
    rw [hv'] at hck
    exact hck
  · exact absurd rfl hcookie

set_option maxRecDepth 100000 in
theorem sample_code_outcome :
    handle sampleCfg sampleEnv sampleStore sampleCodePost = some
      ⟨⟨302, some (ascii "/app"),
          some ⟨ascii "portier", ascii "11f8.04747215074f0b5c", [], some 3600, true⟩, none⟩,
        (consume sampleStore sampleCodePost.mail sampleCodePost.code).2, [], []⟩ := by
  obtain ⟨tok, ht, hh⟩ := handle_challenge_success sampleCfg sampleEnv sampleStore
    sampleCodePost (Or.inl rfl) (by decide) (by decide) sample_mail_valid (by decide)
    (by decide)
  have htok : tok = ascii "11f8.04747215074f0b5c" :=
    Option.some.inj (ht.symm.trans sample_token_issued)
  subst htok
  rw [hh]
  congr 2

/-- Witness: the POST of `u@allowed.com` with the pending code 1234, which sets the cookie. -/
theorem cookie_only_after_code_match_witness :
    handle sampleCfg sampleEnv sampleStore sampleCodePost = some
      ⟨⟨302, some (ascii "/app"),
          some ⟨ascii "portier", ascii "11f8.04747215074f0b5c", [], some 3600, true⟩, none⟩,
        (consume sampleStore sampleCodePost.mail sampleCodePost.code).2, [], []⟩ ∧
    (some ⟨ascii "portier", ascii "11f8.04747215074f0b5c", [], some 3600, true⟩ :
      Option Cookie) ≠ none ∧
    check sampleCfg sampleEnv.now sampleCodePost = some false ∧
      (∀ v, sampleCodePost.cookie = some v →
        verify sampleEnv.now sampleCfg.secret v = some false) ∧
      sampleCfg.uri = sampleCodePost.path ∧ sampleCodePost.method ≠ MethodGet ∧
      matchMail sampleCfg.suffix sampleCodePost.mail = true ∧ sampleCodePost.code ≠ [] ∧
      sampleStore sampleCodePost.mail = some sampleCodePost.code ∧
      (consume sampleStore sampleCodePost.mail sampleCodePost.code).2 sampleCodePost.mail
        = none :=
  ⟨sample_code_outcome, by decide,
    cookie_only_after_code_match sampleCfg sampleEnv sampleStore sampleCodePost _
      sample_code_outcome (by decide)⟩

end Portier
